import Mathlib

/-!
# pyQCD: conjugate-gradient solvers, Lattice storage and the Wilson gauge action

Shallow embedding of `pyQCD/algorithms/conjugate_gradient.hpp`, of the class `Lattice` of
`lib/base/lattice.hpp` with the constructor of `Array` from an expression
(`lib/include/base/array.hpp`), and of the constructor of `WilsonAction`
(`pyQCD/gauge/wilson_action.hpp`).

The solvers are templates over `Real`; the embedding is generic over the type `R` of `Real`,
the type `K` of `std::complex<Real>` and the type of fermion fields, so that every statement
about control flow holds for whatever arithmetic the template is instantiated with.  The
statements that the specification makes "in exact arithmetic" are proved at `R = ℝ`, `K = ℂ`.

Conventions of the embedding:

* a fermion field is a value; the C++ variables `r`, `p`, `Ap`, `solution` become the
  components of the records `CGVars` and `CGStep`, and every field of one solve has the layout
  of `rhs`, so that an assignment between two of them copies entry by entry;
* `action.apply_full(out, in)` and its siblings are functions of `in`;
* the recursion `cg_loop` replaces the `for` loop: the number of iterations still allowed
  decreases while the counter `i : Int` increases; `i + 1 ≤ max_iterations` throughout, so the
  counter of the C++ `Int` does not overflow;
* `dot_fermions` (of `linear_algebra.hpp`) is a parameter `dot` of the solvers;
* the storage of a `Lattice` or an `Array` is a `List`, a `Layout` is the record of the member
  functions the code calls, and the loop counters over the storage are natural numbers;
* the coordinates of a link are a function from the dimension to the component, signed in the
  working copy of the constructor of `WilsonAction`; `links_[link]` is a `List Nat`.
-/

namespace pyQCD

/-- The operations on `Real` and `std::complex<Real>` the solvers use besides the arithmetic
operators and `<`: `std::complex::real()`, the conversion of a `Real` into a
`std::complex<Real>` (as in `prev_residual / dot_fermions(p, Ap)`), and `std::sqrt`. -/
structure Scalar (R K : Type) where
  real : K → R
  complex : R → K
  sqrt : R → R

/-- The interface `fermions::Action<Real, Nc>` (declared in `fermions/fermion_action.hpp`) as far
as the solvers use it.  A call `action.apply_full(out, in)` overwrites `out` with the operator
applied to `in`; `apply_hermiticity(x)` and `remove_hermiticity(x)` transform `x` in place. -/
structure Action (F : Type) where
  apply_full : F → F
  apply_hermiticity : F → F
  remove_hermiticity : F → F
  apply_eoprec : F → F
  apply_even_even_inv : F → F
  apply_odd_even : F → F
  apply_even_odd : F → F

/-- The value `SolutionWrapper<Real, Nc>(solution, final_residual, final_iterations)` that the
solvers return: the solved field, the reported residual and the number of iterations used. -/
structure SolutionWrapper (R F : Type) where
  field : F
  residual : R
  iterations : Int

/-- The variables that a conjugate-gradient loop carries from one iteration to the next. -/
structure CGVars (R F : Type) where
  solution : F
  r : F
  p : F
  prev_residual : R

/-- The values computed by one loop body up to the convergence test. -/
structure CGStep (R K F : Type) where
  p : F
  Ap : F
  alpha : K
  solution : F
  r : F
  current_residual : R

/-- The variables at loop exit together with `final_residual` and `final_iterations`. -/
structure CGExit (R F : Type) where
  solution : F
  residual : R
  iterations : Int

section lattice

variable {S : Type}

/-- Modelled from the spec: `Lattice::segment(offset, size)`, whose declaration is missing from
the sources.  A segment is "an aliasing window over a contiguous index range of the same
backing storage": position `j` of the view is position `offset + j` of the parent.  This is
the read through the view. -/
def segment {v : Nat} (x : Fin v → S) (offset size : Nat) (h : offset + size ≤ v) :
    Fin size → S :=
  fun j => x ⟨offset + j.val, by omega⟩

/-- Modelled from the spec: the assignment `x.segment(offset, size) = e` of an expression `e`
of length `size` to a view, whose declaration is missing from the sources.  "Writes through the
view are writes to the parent": entry `offset + j` of the parent becomes `e[j]`, every entry
outside the window is kept. -/
def assign_segment {v : Nat} (x : Fin v → S) (offset size : Nat) (e : Fin size → S) :
    Fin v → S :=
  fun k =>
    if h : offset ≤ k.val ∧ k.val < offset + size then e ⟨k.val - offset, by omega⟩ else x k

end lattice

section loop

variable {R K F : Type} [Div R] [LT R] [DecidableRel (fun a b : R => a < b)] [Add F] [SMul R F]

/-- Lines 77-79 and 157-159: `beta = current_residual / prev_residual`, `p = r + beta * p`,
`prev_residual = current_residual`, run when the convergence test has failed. -/
def cg_advance (st : CGStep R K F) (prev_residual : R) : CGVars R F :=
  let beta := st.current_residual / prev_residual
  ⟨st.solution, st.r, st.r + beta • st.p, st.current_residual⟩

/-- The loop `for (Int i = 0; i < max_iterations; ++i)` of lines 60-80 and 140-160, which the
two solvers share up to the loop body `step`.  `n` is the number of iterations still allowed,
`i` the loop counter and `s` the loop variables.  `final_iterations` and `final_residual` hold
the values assigned before the loop and are overwritten only at the `break`. -/
def cg_loop (sc : Scalar R K) (step : CGVars R F → CGStep R K F) (tolerance : R)
    (final_iterations : Int) (final_residual : R) : Nat → Int → CGVars R F → CGExit R F
  | 0, _, s => ⟨s.solution, final_residual, final_iterations⟩
  | n + 1, i, s =>
    let st := step s
    if sc.sqrt st.current_residual < tolerance then
      ⟨st.solution, sc.sqrt st.current_residual, i + 1⟩
    else
      cg_loop sc step tolerance final_iterations final_residual n (i + 1)
        (cg_advance st s.prev_residual)

/-- The loop variables at the start of iteration `j` (0-based) when none of the iterations
before `j` has left the loop. -/
def cg_vars (step : CGVars R F → CGStep R K F) (init : CGVars R F) : Nat → CGVars R F
  | 0 => init
  | j + 1 => cg_advance (step (cg_vars step init j)) (cg_vars step init j).prev_residual

end loop

section unprec

variable {R K F : Type} [Div R] [LT R] [DecidableRel (fun a b : R => a < b)] [Div K]
  [Zero F] [Add F] [Sub F] [SMul K F] [SMul R F]

/-- Lines 44-55 of `conjugate_gradient_unprec`: the Hermitian right-hand side, the zero initial
solution, `r = hermitian_rhs - H(A(solution))`, `p = r` and `prev_residual`. -/
def unprec_init (sc : Scalar R K) (dot : F → F → K) (action : Action F) (rhs : F) :
    CGVars R F :=
  let hermitian_rhs := action.apply_hermiticity rhs
  let solution : F := 0
  let r0 := action.apply_hermiticity (action.apply_full solution)
  let r := hermitian_rhs - r0
  let p := r
  ⟨solution, r, p, sc.real (dot r r)⟩

/-- Lines 61-69 of `conjugate_gradient_unprec`: one loop body up to the convergence test. -/
def unprec_step (sc : Scalar R K) (dot : F → F → K) (action : Action F) (s : CGVars R F) :
    CGStep R K F :=
  let p1 := action.apply_hermiticity s.p
  let Ap := action.apply_full p1
  let p2 := action.remove_hermiticity p1
  let alpha := sc.complex s.prev_residual / dot p2 Ap
  let solution := s.solution + alpha • p2
  let r := s.r - alpha • Ap
  ⟨p2, Ap, alpha, solution, r, sc.real (dot r r)⟩

/-- The function `conjugate_gradient_unprec(action, rhs, max_iterations, tolerance)`. -/
def conjugate_gradient_unprec (sc : Scalar R K) (dot : F → F → K) (action : Action F)
    (rhs : F) (max_iterations : Int) (tolerance : R) : SolutionWrapper R F :=
  let e := cg_loop sc (unprec_step sc dot action) tolerance max_iterations tolerance
    max_iterations.toNat 0 (unprec_init sc dot action rhs)
  ⟨action.remove_hermiticity e.solution, e.residual, e.iterations⟩

/-- The body of iteration `j` (0-based) of `conjugate_gradient_unprec` when none of the
iterations before `j` has left the loop. -/
def unprec_body (sc : Scalar R K) (dot : F → F → K) (action : Action F) (rhs : F) (j : Nat) :
    CGStep R K F :=
  unprec_step sc dot action (cg_vars (unprec_step sc dot action) (unprec_init sc dot action rhs) j)

/-- The solution after `j` updates `x += alpha * p`, starting from the zero field: update `j`
(0-based) adds the `alpha * p` of iteration `j`. -/
def unprec_updates (sc : Scalar R K) (dot : F → F → K) (action : Action F) (rhs : F) : Nat → F
  | 0 => 0
  | j + 1 =>
    unprec_updates sc dot action rhs j
      + (unprec_body sc dot action rhs j).alpha • (unprec_body sc dot action rhs j).p

end unprec

section eoprec

variable {R K S : Type} [Div R] [LT R] [DecidableRel (fun a b : R => a < b)] [Div K]
  [Add S] [Sub S] [SMul K S] [SMul R S] {volume : Nat}

/-- Lines 100-111 of `conjugate_gradient_eoprec`: the preconditioned source, held in
`hermitian_rhs` before the Hermiticity transform of line 113. -/
def eoprec_source (action : Action (Fin volume → S)) (rhs : Fin volume → S) : Fin volume → S :=
  let hermitian_rhs := rhs
  let temp_storage1 := action.apply_even_even_inv rhs
  let temp_storage2 := action.apply_odd_even temp_storage1
  assign_segment hermitian_rhs (volume / 2) (volume / 2)
    (segment hermitian_rhs (volume / 2) (volume / 2) (by omega)
      - segment temp_storage2 (volume / 2) (volume / 2) (by omega))

/-- Lines 113-135 of `conjugate_gradient_eoprec`.  `r` is constructed without a fill value, so
its even entries are whatever the storage holds: `r_storage` stands for that content. -/
def eoprec_init (sc : Scalar R K) (dot : (Fin (volume / 2) → S) → (Fin (volume / 2) → S) → K)
    (action : Action (Fin volume → S)) (r_storage rhs : Fin volume → S) :
    CGVars R (Fin volume → S) :=
  let hermitian_rhs := action.apply_hermiticity (eoprec_source action rhs)
  let solution := action.apply_even_even_inv rhs
  let Ap := action.apply_hermiticity (action.apply_eoprec solution)
  let r := assign_segment r_storage (volume / 2) (volume / 2)
    (segment hermitian_rhs (volume / 2) (volume / 2) (by omega)
      - segment Ap (volume / 2) (volume / 2) (by omega))
  let p := r
  ⟨solution, r, p,
    sc.real (dot (segment r (volume / 2) (volume / 2) (by omega))
      (segment r (volume / 2) (volume / 2) (by omega)))⟩

/-- Lines 141-149 of `conjugate_gradient_eoprec`: one loop body up to the convergence test. -/
def eoprec_step (sc : Scalar R K) (dot : (Fin (volume / 2) → S) → (Fin (volume / 2) → S) → K)
    (action : Action (Fin volume → S)) (s : CGVars R (Fin volume → S)) :
    CGStep R K (Fin volume → S) :=
  let Ap := action.apply_hermiticity (action.apply_eoprec s.p)
  let alpha := sc.complex s.prev_residual /
    dot (segment s.p (volume / 2) (volume / 2) (by omega))
      (segment Ap (volume / 2) (volume / 2) (by omega))
  let solution := assign_segment s.solution (volume / 2) (volume / 2)
    (segment s.solution (volume / 2) (volume / 2) (by omega)
      + alpha • segment s.p (volume / 2) (volume / 2) (by omega))
  let r := assign_segment s.r (volume / 2) (volume / 2)
    (segment s.r (volume / 2) (volume / 2) (by omega)
      - alpha • segment Ap (volume / 2) (volume / 2) (by omega))
  ⟨s.p, Ap, alpha, solution, r,
    sc.real (dot (segment r (volume / 2) (volume / 2) (by omega))
      (segment r (volume / 2) (volume / 2) (by omega)))⟩

/-- Lines 162-170 of `conjugate_gradient_eoprec`: the reversal of the preconditioning on the
even sites of the solution. -/
def eoprec_reconstruct (action : Action (Fin volume → S)) (solution : Fin volume → S) :
    Fin volume → S :=
  let temp_storage1 := action.apply_even_odd solution
  let temp_storage2 := action.apply_even_even_inv temp_storage1
  assign_segment solution 0 (volume / 2)
    (segment solution 0 (volume / 2) (by omega) - segment temp_storage2 0 (volume / 2) (by omega))

/-- The variables at the exit of the loop of `conjugate_gradient_eoprec`. -/
def eoprec_exit (sc : Scalar R K) (dot : (Fin (volume / 2) → S) → (Fin (volume / 2) → S) → K)
    (action : Action (Fin volume → S)) (r_storage rhs : Fin volume → S) (max_iterations : Int)
    (tolerance : R) : CGExit R (Fin volume → S) :=
  cg_loop sc (eoprec_step sc dot action) tolerance max_iterations tolerance
    max_iterations.toNat 0 (eoprec_init sc dot action r_storage rhs)

/-- The function `conjugate_gradient_eoprec(action, rhs, max_iterations, tolerance)`. -/
def conjugate_gradient_eoprec (sc : Scalar R K)
    (dot : (Fin (volume / 2) → S) → (Fin (volume / 2) → S) → K)
    (action : Action (Fin volume → S)) (r_storage rhs : Fin volume → S) (max_iterations : Int)
    (tolerance : R) : SolutionWrapper R (Fin volume → S) :=
  let e := eoprec_exit sc dot action r_storage rhs max_iterations tolerance
  ⟨eoprec_reconstruct action e.solution, e.residual, e.iterations⟩

/-- The body of iteration `j` (0-based) of `conjugate_gradient_eoprec` when none of the
iterations before `j` has left the loop. -/
def eoprec_body (sc : Scalar R K) (dot : (Fin (volume / 2) → S) → (Fin (volume / 2) → S) → K)
    (action : Action (Fin volume → S)) (r_storage rhs : Fin volume → S) (j : Nat) :
    CGStep R K (Fin volume → S) :=
  eoprec_step sc dot action
    (cg_vars (eoprec_step sc dot action) (eoprec_init sc dot action r_storage rhs) j)

end eoprec

section dot

/-- Modelled from the spec: `dot_fermions` of `linear_algebra.hpp`, a header missing from the
sources: "the full (complex) dot product" of two fields (or two views) of equal length,
conjugate-linear in its first argument; every entry of a field is one complex number here. -/
def dot_fermions {K : Type} [AddCommMonoid K] [Mul K] [Star K] {m : Nat} (psi eta : Fin m → K) :
    K :=
  ∑ i, star (psi i) * eta i

/-- Exact arithmetic: `Real` is the field of real numbers, `std::complex<Real>` the field of
complex numbers, with `sqrt` the square root on the reals. -/
def exact_arithmetic (sqrt : ℝ → ℝ) : Scalar ℝ ℂ :=
  ⟨Complex.re, Complex.ofReal, sqrt⟩

end dot

section examples

/-- An action on fields of two complex numbers: the matrix `diag(1, 2)` with the identity as
Hermiticity transform. -/
def diag_action : Action (Fin 2 → ℂ) :=
  ⟨fun x => ![x 0, 2 * x 1], id, id, id, id, id, id⟩

/-- The right-hand side `(3, 4)`. -/
def rhs34 : Fin 2 → ℂ := ![3, 4]

/-- The identity action on fields of two complex numbers (a 2-site lattice with one complex
number per site). -/
def identity_action : Action (Fin 2 → ℂ) :=
  ⟨id, id, id, id, id, id, id⟩

/-- An action on a 2-site lattice (site 0 even, site 1 odd) with one complex number per site:
the operator is `diag(1, -1)`, the Hermiticity transform is `diag(1, -1)` as well and is its own
inverse.  The even-even block is `1`, the off-diagonal blocks vanish and the Schur complement on
the odd site is `-1`. -/
def gamma_action : Action (Fin 2 → ℂ) where
  apply_full x := ![x 0, -x 1]
  apply_hermiticity x := ![x 0, -x 1]
  remove_hermiticity x := ![x 0, -x 1]
  apply_eoprec x := ![0, -x 1]
  apply_even_even_inv x := ![x 0, 0]
  apply_odd_even _ := ![0, 0]
  apply_even_odd _ := ![0, 0]

/-- The right-hand side `(1, 1)`. -/
def rhs11 : Fin 2 → ℂ := ![1, 1]

/-- An action on a 3-site lattice: the even-even inverse keeps entry 0, the odd-even block
carries entry 0 to the entries 1 and 2. -/
def three_site_action : Action (Fin 3 → ℂ) where
  apply_full x := x
  apply_hermiticity x := x
  remove_hermiticity x := x
  apply_eoprec x := x
  apply_even_even_inv x := ![x 0, 0, 0]
  apply_odd_even x := ![0, x 0, x 0]
  apply_even_odd _ := ![0, 0, 0]

/-- The right-hand side `(1, 1, 1)`. -/
def rhs111 : Fin 3 → ℂ := ![1, 1, 1]

/-- An action on a 4-site lattice (sites 0, 1 even, sites 2, 3 odd) with one complex number per
site: the even-even block is the identity, the even-odd block carries the odd entries to the
even sites, the odd-even block vanishes and the odd-odd block is `diag(1, 2)`, which is then
the Schur complement; the Hermiticity transform is the identity. -/
def four_site_action : Action (Fin 4 → ℂ) where
  apply_full x := ![x 0 + x 2, x 1 + x 3, x 2, 2 * x 3]
  apply_hermiticity x := x
  remove_hermiticity x := x
  apply_eoprec x := ![0, 0, x 2, 2 * x 3]
  apply_even_even_inv x := ![x 0, x 1, 0, 0]
  apply_odd_even _ := ![0, 0, 0, 0]
  apply_even_odd x := ![x 2, x 3, 0, 0]

/-- The right-hand side `(1, 2, 3, 4)`. -/
def rhs1234 : Fin 4 → ℂ := ![1, 2, 3, 4]

end examples

section views

/-- Modelled from the spec: the parent indices that the view `segment(offset, size)` addresses.
Position `j` of the view is position `offset + j` of the parent for `j` in `[0, size)`, so the
view covers the index `k` when `offset ≤ k < offset + size`; these are the `k` that
`assign_segment` writes. -/
def segment_covers (offset size k : Nat) : Bool :=
  decide (offset ≤ k ∧ k < offset + size)

end views

section layout

/-- The class `Layout` (declared in `layout.hpp`, missing from the sources) as far as the
sources call it: `volume()`, `num_dims()`, `local_size()`, `get_array_index(site_index)`,
`get_site_index(array_index)`, `compute_site_coords(index)` and `get_array_index(coords)`;
`shape` holds the extent of each dimension, which `sanitise_site_coords` wraps by. -/
structure Layout where
  volume : Nat
  num_dims : Nat
  local_size : Nat
  shape : Nat → Nat
  get_array_index : Nat → Nat
  get_site_index : Nat → Nat
  compute_site_coords : Nat → Nat → Nat
  get_array_index_coords : (Nat → Int) → Nat

/-- The maps `get_array_index` and `get_site_index` of a Layout are mutually inverse
bijections on `[0, volume)`. -/
def Layout.bijective (layout : Layout) : Prop :=
  (∀ s, s < layout.volume →
      layout.get_array_index s < layout.volume
        ∧ layout.get_site_index (layout.get_array_index s) = s)
    ∧ (∀ i, i < layout.volume →
      layout.get_site_index i < layout.volume
        ∧ layout.get_array_index (layout.get_site_index i) = i)

instance Layout.decidable_bijective (layout : Layout) : Decidable layout.bijective :=
  inferInstanceAs (Decidable (_ ∧ _))

end layout

section lattice_class

variable {T U : Type}

/-- The class `Lattice<T>` of `lib/base/lattice.hpp`: the storage `data_` of its base class
`Array` and the Layout that `layout_` points to. -/
structure Lattice (T : Type) where
  data : List T
  layout : Layout

/-- The member `volume()`: the volume of the Layout. -/
def Lattice.volume (self : Lattice T) : Nat :=
  self.layout.volume

/-- The call `data_.resize(n)` of `std::vector`: the first `n` elements are kept and new
elements are value-initialised, `init` standing for `T()`. -/
def resize (data : List T) (n : Nat) (init : T) : List T :=
  data.take n ++ List.replicate (n - data.length) init

/-- The constructor `Lattice(const Layout* layout)`, lines 23-27. -/
def Lattice.from_layout (layout : Layout) (init : T) : Lattice T :=
  ⟨resize [] layout.volume init, layout⟩

/-- The constructor `Lattice(const Layout* layout, const T& val)`, lines 28-31; the base
constructor `Array(n, val)` fills the storage with `n` copies of `val`. -/
def Lattice.from_value (layout : Layout) (val : T) : Lattice T :=
  ⟨List.replicate layout.volume val, layout⟩

/-- A lazy expression `ArrayExpr<U1, U2>` (declared in `array_expr.hpp`, missing from the
sources) as far as the constructors use it: `size()`, the element `operator[](i)` and
`layout()`. -/
structure ArrayExpr (U : Type) where
  size : Nat
  at_index : Nat → U
  layout : Layout

/-- The loop `for (i = 0; i < size; ++i) data_[i] = expr[i]` of the two constructors from an
expression, `convert` being the conversion of an element of the expression to `T`. -/
def materialise (convert : U → T) (size : Nat) (at_index : Nat → U) (data : List T) : List T :=
  (List.range size).foldl (fun d i => d.set i (convert (at_index i))) data

/-- The constructor `Lattice(const ArrayExpr<U1, U2>& expr)`, lines 33-41. -/
def Lattice.from_expr (convert : U → T) (init : T) (expr : ArrayExpr U) : Lattice T :=
  ⟨materialise convert expr.size expr.at_index (resize [] expr.size init), expr.layout⟩

/-- The constructor `Array(const Array<U, T>& expr)` of `lib/include/base/array.hpp`, lines
29-36: the storage `data_` of the new Array.  The operand is used through `size()` and
`operator[]`; the counter `int i` runs from 0 to `expr.size()`. -/
def Array_from_expr (convert : U → T) (init : T) (size : Nat) (at_index : Nat → U) : List T :=
  materialise convert size at_index (resize [] size init)

/-- The read `lattice(i)` through `operator()(const int i)`: the element
`data_[layout_->get_array_index(i)]` of the site `i`. -/
def Lattice.at_site (self : Lattice T) (site : Nat) : Option T :=
  self.data[self.layout.get_array_index site]?

/-- The write `(*this)(site) = val` through `operator()`. -/
def Lattice.set_site (self : Lattice T) (site : Nat) (val : T) : Lattice T :=
  ⟨self.data.set (self.layout.get_array_index site) val, self.layout⟩

/-- What a call of the copy-assignment leaves: whether its `assert` failed, and `*this`. -/
structure Assigned (T : Type) where
  assertion_failed : Bool
  lattice : Lattice T

/-- The copy-assignment `Lattice::operator=(const Lattice& lattice)`, lines 67-78, with the
`assert` compiled in.  `same_object` is the outcome of `&lattice == this`; the read
`lattice[i]` is the element `i` of the storage of `lattice`. -/
def Lattice.assign (self lattice : Lattice T) (same_object : Bool) : Assigned T :=
  if lattice.volume ≠ self.volume then ⟨true, self⟩
  else if same_object then ⟨false, self⟩
  else
    ⟨false, (List.range self.volume).foldl
      (fun this i =>
        match lattice.data[i]? with
        | some val => this.set_site (lattice.layout.get_site_index i) val
        | none => this)
      self⟩

end lattice_class

section lattice_examples

/-- A Layout of volume 3 that stores the site `s` at the array index `s`. -/
def straight_layout : Layout where
  volume := 3
  num_dims := 1
  local_size := 3
  shape _ := 3
  get_array_index s := s
  get_site_index i := i
  compute_site_coords i _ := i
  get_array_index_coords c := (c 0).toNat

/-- A Layout of volume 3 that stores the site `s` at the array index `(s + 1) % 3`. -/
def rotated_layout : Layout where
  volume := 3
  num_dims := 1
  local_size := 3
  shape _ := 3
  get_array_index s := (s + 1) % 3
  get_site_index i := (i + 2) % 3
  compute_site_coords i _ := (i + 2) % 3
  get_array_index_coords c := ((c 0).toNat + 1) % 3

/-- A Layout of volume 2. -/
def short_layout : Layout where
  volume := 2
  num_dims := 1
  local_size := 2
  shape _ := 2
  get_array_index s := s
  get_site_index i := i
  compute_site_coords i _ := i
  get_array_index_coords c := (c 0).toNat

/-- An expression of size 1 whose layout has volume 2. -/
def short_expr : ArrayExpr Nat :=
  ⟨1, fun _ => 7, short_layout⟩

/-- An expression of size 3 with the elements 5, 6, 7 on the Layout `rotated_layout`. -/
def sample_expr : ArrayExpr Nat :=
  ⟨3, fun i => 5 + i, rotated_layout⟩

end lattice_examples

section wilson

/-- Modelled from the spec: `Layout::sanitise_site_coords(coords)`, declared in the missing
`layout.hpp`.  It "folds an out-of-range coordinate (e.g., produced by a unit-offset neighbor
lookup) back into the valid range per the lattice's periodic boundary convention": every
component of the `num_dims()` dimensions is reduced modulo the extent of its dimension. -/
def sanitise_site_coords (layout : Layout) (coords : Nat → Int) : Nat → Int :=
  fun k => if k < layout.num_dims then coords k % (layout.shape k : Int) else coords k

/-- Lines 62-69 of the constructor of `WilsonAction`: the directions `i` in `[0, num_dims)`
other than the direction `link_coords[num_dims]` of the link, in the order of the loop. -/
def wilson_planes (num_dims : Nat) (link_coords : Nat → Nat) : List Nat :=
  (List.range num_dims).filter (fun i => link_coords num_dims != i)

/-- The six link indices that one pass of the loop of lines 73-123 stores. -/
structure Staple where
  upper0 : Nat
  upper1 : Nat
  upper2 : Nat
  lower0 : Nat
  lower1 : Nat
  lower2 : Nat

/-- Lines 74-122 of the constructor of `WilsonAction` for one plane direction `plane`
(`planes[i]` in the source): the copy of the link coordinates is shifted, wrapped and looked up
six times in a row. -/
def wilson_staple (layout : Layout) (link_coords : Nat → Nat) (plane : Nat) : Staple :=
  let num_dims := layout.num_dims - 1
  let mu := link_coords num_dims
  let copy0 : Nat → Int := fun k => (link_coords k : Int)
  -- First link in U_nu (x + mu)
  let copy1 := Function.update copy0 num_dims (plane : Int)
  let copy1 := Function.update copy1 mu (copy1 mu + 1)
  let copy1 := sanitise_site_coords layout copy1
  let index0 := layout.get_array_index_coords copy1
  -- Next link is U^dagger_mu (x + nu)
  let copy2 := Function.update copy1 num_dims (mu : Int)
  let copy2 := Function.update copy2 mu (copy2 mu - 1)
  let copy2 := Function.update copy2 plane (copy2 plane + 1)
  let copy2 := sanitise_site_coords layout copy2
  let index1 := layout.get_array_index_coords copy2
  -- Next link is U^dagger_nu (x)
  let copy3 := Function.update copy2 plane (copy2 plane - 1)
  let copy3 := Function.update copy3 num_dims (plane : Int)
  let copy3 := sanitise_site_coords layout copy3
  let index2 := layout.get_array_index_coords copy3
  -- First link is U^dagger_nu (x + mu - nu)
  let copy4 := Function.update copy3 mu (copy3 mu + 1)
  let copy4 := Function.update copy4 plane (copy4 plane - 1)
  let copy4 := sanitise_site_coords layout copy4
  let index3 := layout.get_array_index_coords copy4
  -- Next link is U^dagger_mu (x - nu)
  let copy5 := Function.update copy4 num_dims (copy4 num_dims)
  let copy5 := Function.update copy5 mu (copy5 mu - 1)
  let copy5 := sanitise_site_coords layout copy5
  let index4 := layout.get_array_index_coords copy5
  -- Next link is U_nu (x - nu)
  let copy6 := Function.update copy5 num_dims (plane : Int)
  let copy6 := sanitise_site_coords layout copy6
  let index5 := layout.get_array_index_coords copy6
  ⟨index0, index1, index2, index3, index4, index5⟩

/-- The writes `links_[site_index][6 * i + t] = ...` of one pass of the loop. -/
def store_staple (row : List Nat) (i : Nat) (staple : Staple) : List Nat :=
  (((((row.set (6 * i) staple.upper0).set (6 * i + 1) staple.upper1).set (6 * i + 2)
    staple.upper2).set (6 * i + 3) staple.lower0).set (6 * i + 4) staple.lower1).set (6 * i + 5)
    staple.lower2

/-- Lines 59-123 of the constructor of `WilsonAction`: the row `links_[site_index]`. -/
def wilson_row (layout : Layout) (site_index : Nat) : List Nat :=
  let link_coords := layout.compute_site_coords site_index
  let num_dims := layout.num_dims - 1
  let planes := wilson_planes num_dims link_coords
  (List.range (num_dims - 1)).foldl
    (fun row i => store_staple row i (wilson_staple layout link_coords (planes.getD i 0)))
    (resize [] (6 * (num_dims - 1)) 0)

/-- Lines 56-124 of the constructor of `WilsonAction`: the table `links_`. -/
def wilson_links (layout : Layout) : List (List Nat) :=
  (List.range layout.local_size).map (wilson_row layout)

/-- The site coordinates `x` with the component `k` moved by `d`: the neighbour of `x` in the
direction `k`, before the periodic wrap. -/
def shifted (x : Nat → Int) (k : Nat) (d : Int) : Nat → Int :=
  Function.update x k (x k + d)

/-- The array index of the link with the site coordinates `x`, wrapped periodically, and the
direction `direction`: the direction is the last component of the coordinates of a link. -/
def link_index (layout : Layout) (x : Nat → Int) (direction : Nat) : Nat :=
  layout.get_array_index_coords
    (sanitise_site_coords layout (Function.update x (layout.num_dims - 1) (direction : Int)))

/-- The direction `mu` of the link `site_index`: the last component of its coordinates. -/
def link_direction (layout : Layout) (site_index : Nat) : Nat :=
  layout.compute_site_coords site_index (layout.num_dims - 1)

/-- The coordinates `x` of the site of the link `site_index`, as signed numbers. -/
def link_site (layout : Layout) (site_index : Nat) : Nat → Int :=
  fun k => (layout.compute_site_coords site_index k : Int)

/-- The plane direction `nu = planes[i]` of the link `site_index`. -/
def plane_direction (layout : Layout) (site_index i : Nat) : Nat :=
  (wilson_planes (layout.num_dims - 1) (layout.compute_site_coords site_index)).getD i 0

/-- The Layout of the links of a periodic 2 x 2 lattice: a link has the coordinates
`(x0, x1, direction)` and the array index `(x0 * 2 + x1) * 2 + direction`. -/
def square_layout : Layout where
  volume := 8
  num_dims := 3
  local_size := 8
  shape _ := 2
  get_array_index s := s
  get_site_index i := i
  compute_site_coords i k := if k = 0 then i / 4 % 2 else if k = 1 then i / 2 % 2 else i % 2
  get_array_index_coords c := ((c 0).toNat * 2 + (c 1).toNat) * 2 + (c 2).toNat

end wilson

section loop_facts

variable {R K F : Type} [Div R] [Add F] [SMul R F]

theorem cg_vars_advance (step : CGVars R F → CGStep R K F) (s : CGVars R F) (j : Nat) :
    cg_vars step (cg_advance (step s) s.prev_residual) j = cg_vars step s (j + 1) := by
  induction j with
  | zero => rfl
  | succ j ih =>
    show cg_advance (step (cg_vars step (cg_advance (step s) s.prev_residual) j))
        (cg_vars step (cg_advance (step s) s.prev_residual) j).prev_residual
      = cg_advance (step (cg_vars step s (j + 1))) (cg_vars step s (j + 1)).prev_residual
    rw [ih]

/-- When the test fails in each of the `n` iterations the loop runs them all and leaves
`final_residual` and `final_iterations` as they were set before the loop. -/
theorem cg_loop_exhausted [LT R] [DecidableRel (fun a b : R => a < b)] (sc : Scalar R K)
    (step : CGVars R F → CGStep R K F) (tolerance : R)
    (final_iterations : Int) (final_residual : R) (n : Nat) :
    ∀ (i : Int) (s : CGVars R F),
      (∀ j, j < n → ¬ sc.sqrt (step (cg_vars step s j)).current_residual < tolerance) →
      cg_loop sc step tolerance final_iterations final_residual n i s
        = ⟨(cg_vars step s n).solution, final_residual, final_iterations⟩ := by
  induction n with
  | zero => intro i s _; rfl
  | succ n ih =>
    intro i s h
    have h0 : ¬ sc.sqrt (step s).current_residual < tolerance := h 0 (Nat.succ_pos n)
    have hrest : ∀ j, j < n →
        ¬ sc.sqrt (step (cg_vars step (cg_advance (step s) s.prev_residual) j)).current_residual
          < tolerance := by
      intro j hj
      rw [cg_vars_advance]
      exact h (j + 1) (Nat.succ_lt_succ hj)
    rw [cg_loop, if_neg h0, ih (i + 1) _ hrest, cg_vars_advance]

/-- When iteration `k` is the first whose test succeeds, the loop leaves at iteration `k` with
the solution and the residual norm of that iteration and the counter plus one. -/
theorem cg_loop_break [LT R] [DecidableRel (fun a b : R => a < b)] (sc : Scalar R K)
    (step : CGVars R F → CGStep R K F) (tolerance : R)
    (final_iterations : Int) (final_residual : R) (k : Nat) :
    ∀ (n : Nat) (i : Int) (s : CGVars R F), k < n →
      (∀ j, j < k → ¬ sc.sqrt (step (cg_vars step s j)).current_residual < tolerance) →
      sc.sqrt (step (cg_vars step s k)).current_residual < tolerance →
      cg_loop sc step tolerance final_iterations final_residual n i s
        = ⟨(step (cg_vars step s k)).solution,
            sc.sqrt (step (cg_vars step s k)).current_residual, i + k + 1⟩ := by
  induction k with
  | zero =>
    intro n i s hn _ hk
    obtain ⟨m, rfl⟩ : ∃ m, n = m + 1 := ⟨n - 1, by omega⟩
    have hk0 : sc.sqrt (step s).current_residual < tolerance := hk
    rw [cg_loop, if_pos hk0]
    simp [cg_vars]
  | succ k ih =>
    intro n i s hn hfail hk
    obtain ⟨m, rfl⟩ : ∃ m, n = m + 1 := ⟨n - 1, by omega⟩
    have h0 : ¬ sc.sqrt (step s).current_residual < tolerance := hfail 0 (Nat.succ_pos k)
    have hrest : ∀ j, j < k →
        ¬ sc.sqrt (step (cg_vars step (cg_advance (step s) s.prev_residual) j)).current_residual
          < tolerance := by
      intro j hj
      rw [cg_vars_advance]
      exact hfail (j + 1) (Nat.succ_lt_succ hj)
    have hk1 : sc.sqrt (step (cg_vars step (cg_advance (step s) s.prev_residual) k)).current_residual
        < tolerance := by
      rw [cg_vars_advance]
      exact hk
    rw [cg_loop, if_neg h0, ih m (i + 1) _ (by omega) hrest hk1, cg_vars_advance]
    congr 1
    push_cast
    ring

end loop_facts

section dot_facts

variable {m : Nat}

theorem dot_eq_dotProduct (x y : Fin m → ℂ) : dot_fermions x y = Matrix.dotProduct (star x) y := rfl

theorem dot_add_right (x y z : Fin m → ℂ) :
    dot_fermions x (y + z) = dot_fermions x y + dot_fermions x z := by
  simp [dot_fermions, mul_add, Finset.sum_add_distrib]

theorem dot_sub_right (x y z : Fin m → ℂ) :
    dot_fermions x (y - z) = dot_fermions x y - dot_fermions x z := by
  simp [dot_fermions, mul_sub, Finset.sum_sub_distrib]

theorem dot_smul_right (c : ℂ) (x y : Fin m → ℂ) :
    dot_fermions x (c • y) = c * dot_fermions x y := by
  simp [dot_fermions, Finset.mul_sum]
  refine Finset.sum_congr rfl (fun i _ => by ring)

theorem dot_conj (x y : Fin m → ℂ) :
    (starRingEnd ℂ) (dot_fermions x y) = dot_fermions y x := by
  simp [dot_fermions, map_sum]
  refine Finset.sum_congr rfl (fun i _ => by ring)

theorem dot_add_left (x y z : Fin m → ℂ) :
    dot_fermions (x + y) z = dot_fermions x z + dot_fermions y z := by
  simp [dot_fermions, add_mul, Finset.sum_add_distrib]

theorem dot_sub_left (x y z : Fin m → ℂ) :
    dot_fermions (x - y) z = dot_fermions x z - dot_fermions y z := by
  simp [dot_fermions, sub_mul, Finset.sum_sub_distrib]

theorem dot_smul_left (c : ℂ) (x y : Fin m → ℂ) :
    dot_fermions (c • x) y = (starRingEnd ℂ) c * dot_fermions x y := by
  simp [dot_fermions, Finset.mul_sum]
  refine Finset.sum_congr rfl (fun i _ => by ring)

theorem dot_zero_right (x : Fin m → ℂ) : dot_fermions x 0 = 0 := by
  simp [dot_fermions]

theorem dot_zero_left (x : Fin m → ℂ) : dot_fermions 0 x = 0 := by
  simp [dot_fermions]

theorem dot_self_ofReal (x : Fin m → ℂ) :
    ((dot_fermions x x).re : ℂ) = dot_fermions x x :=
  Complex.conj_eq_iff_re.mp (dot_conj x x)

theorem dot_self_re (x : Fin m → ℂ) :
    (dot_fermions x x).re = ∑ i, Complex.normSq (x i) := by
  simp only [dot_fermions, Complex.re_sum]
  refine Finset.sum_congr rfl (fun i _ => ?_)
  simp [Complex.mul_re, Complex.normSq_apply]

theorem dot_self_re_eq_zero (x : Fin m → ℂ) : (dot_fermions x x).re = 0 ↔ x = 0 := by
  rw [dot_self_re, Finset.sum_eq_zero_iff_of_nonneg (fun i _ => Complex.normSq_nonneg _)]
  constructor
  · intro h
    funext i
    exact Complex.normSq_eq_zero.mp (h i (Finset.mem_univ i))
  · intro h i _
    simp [h]

theorem dot_self_eq_zero (x : Fin m → ℂ) : dot_fermions x x = 0 ↔ x = 0 := by
  rw [← dot_self_re_eq_zero, ← dot_self_ofReal x]
  simp

theorem dot_self_re_nonneg (x : Fin m → ℂ) : 0 ≤ (dot_fermions x x).re := by
  rw [dot_self_re]
  exact Finset.sum_nonneg (fun i _ => Complex.normSq_nonneg _)

theorem real_smul_eq (c : ℝ) (x : Fin m → ℂ) : c • x = (c : ℂ) • x := by
  funext i
  simp

end dot_facts

section diag_example

theorem diag_init :
    unprec_init (exact_arithmetic Real.sqrt) dot_fermions diag_action rhs34
      = ⟨0, ![3, 4], ![3, 4], 25⟩ := by
  simp [unprec_init, exact_arithmetic, diag_action, rhs34, dot_fermions, Fin.sum_univ_two]
  norm_num

theorem diag_step0 :
    unprec_step (exact_arithmetic Real.sqrt) dot_fermions diag_action ⟨0, ![3, 4], ![3, 4], 25⟩
      = ⟨![3, 4], ![3, 8], 25 / 41, ![75 / 41, 100 / 41], ![48 / 41, -36 / 41], 3600 / 1681⟩ := by
  simp [unprec_step, exact_arithmetic, diag_action, dot_fermions, Fin.sum_univ_two,
    Complex.conj_ofNat]
  norm_num

theorem diag_advance0 :
    cg_advance (⟨![3, 4], ![3, 8], 25 / 41, ![75 / 41, 100 / 41], ![48 / 41, -36 / 41],
        3600 / 1681⟩ : CGStep ℝ ℂ (Fin 2 → ℂ)) 25
      = ⟨![75 / 41, 100 / 41], ![48 / 41, -36 / 41], ![2400 / 1681, -900 / 1681],
          3600 / 1681⟩ := by
  simp [cg_advance]
  norm_num

theorem diag_step1 :
    unprec_step (exact_arithmetic Real.sqrt) dot_fermions diag_action
      ⟨![75 / 41, 100 / 41], ![48 / 41, -36 / 41], ![2400 / 1681, -900 / 1681], 3600 / 1681⟩
      = ⟨![2400 / 1681, -900 / 1681], ![2400 / 1681, -1800 / 1681], 41 / 50, ![3, 2], ![0, 0],
          0⟩ := by
  simp [unprec_step, exact_arithmetic, diag_action, dot_fermions, Fin.sum_univ_two,
    Complex.conj_ofNat]
  norm_num

theorem diag_body0 :
    unprec_body (exact_arithmetic Real.sqrt) dot_fermions diag_action rhs34 0
      = ⟨![3, 4], ![3, 8], 25 / 41, ![75 / 41, 100 / 41], ![48 / 41, -36 / 41], 3600 / 1681⟩ := by
  simp only [unprec_body, cg_vars, diag_init, diag_step0]

theorem diag_body1 :
    unprec_body (exact_arithmetic Real.sqrt) dot_fermions diag_action rhs34 1
      = ⟨![2400 / 1681, -900 / 1681], ![2400 / 1681, -1800 / 1681], 41 / 50, ![3, 2], ![0, 0],
          0⟩ := by
  simp only [unprec_body, cg_vars, diag_init, diag_step0, diag_advance0, diag_step1]

/-- The residual norm after the first iteration on `diag(1, 2) x = (3, 4)` is `60 / 41`. -/
theorem diag_norm0 :
    (exact_arithmetic Real.sqrt).sqrt ((exact_arithmetic Real.sqrt).real
      (dot_fermions (unprec_body (exact_arithmetic Real.sqrt) dot_fermions diag_action rhs34 0).r
        (unprec_body (exact_arithmetic Real.sqrt) dot_fermions diag_action rhs34 0).r))
      = 60 / 41 := by
  rw [diag_body0]
  have h : Complex.re (dot_fermions (![48 / 41, -36 / 41] : Fin 2 → ℂ) ![48 / 41, -36 / 41])
      = (60 / 41) * (60 / 41) := by
    simp [dot_fermions, Fin.sum_univ_two, Complex.conj_ofNat]
    norm_num
  show Real.sqrt (Complex.re (dot_fermions (![48 / 41, -36 / 41] : Fin 2 → ℂ)
    ![48 / 41, -36 / 41])) = 60 / 41
  rw [h]
  exact Real.sqrt_mul_self (by norm_num)

/-- The residual norm after the second iteration on `diag(1, 2) x = (3, 4)` is `0`. -/
theorem diag_norm1 :
    (exact_arithmetic Real.sqrt).sqrt ((exact_arithmetic Real.sqrt).real
      (dot_fermions (unprec_body (exact_arithmetic Real.sqrt) dot_fermions diag_action rhs34 1).r
        (unprec_body (exact_arithmetic Real.sqrt) dot_fermions diag_action rhs34 1).r))
      = 0 := by
  rw [diag_body1]
  simp [exact_arithmetic, dot_fermions]

end diag_example

section unprec_control

variable {R K F : Type} [Div R] [LT R] [DecidableRel (fun a b : R => a < b)] [Div K]
  [Zero F] [Add F] [Sub F] [SMul K F] [SMul R F]

omit [LT R] [DecidableRel (fun a b : R => a < b)] in
theorem unprec_vars_solution (sc : Scalar R K) (dot : F → F → K) (action : Action F) (rhs : F)
    (j : Nat) :
    (cg_vars (unprec_step sc dot action) (unprec_init sc dot action rhs) j).solution
      = unprec_updates sc dot action rhs j := by
  induction j with
  | zero => rfl
  | succ j ih =>
    show (cg_vars (unprec_step sc dot action) (unprec_init sc dot action rhs) j).solution
        + (unprec_body sc dot action rhs j).alpha • (unprec_body sc dot action rhs j).p
      = unprec_updates sc dot action rhs j
        + (unprec_body sc dot action rhs j).alpha • (unprec_body sc dot action rhs j).p
    rw [ih]

/-- The value returned by `conjugate_gradient_unprec` when iteration `i` is the first to meet
the convergence test. -/
theorem unprec_result_break (sc : Scalar R K) (dot : F → F → K) (action : Action F) (rhs : F)
    (max_iterations : Int) (tolerance : R) (i : Nat) (hi : (i : Int) < max_iterations)
    (hfirst : ∀ j : Nat, j < i →
      ¬ sc.sqrt (sc.real (dot (unprec_body sc dot action rhs j).r
          (unprec_body sc dot action rhs j).r)) < tolerance)
    (hconv : sc.sqrt (sc.real (dot (unprec_body sc dot action rhs i).r
        (unprec_body sc dot action rhs i).r)) < tolerance) :
    conjugate_gradient_unprec sc dot action rhs max_iterations tolerance
      = ⟨action.remove_hermiticity (unprec_body sc dot action rhs i).solution,
          sc.sqrt (sc.real (dot (unprec_body sc dot action rhs i).r
            (unprec_body sc dot action rhs i).r)), i + 1⟩ := by
  have hloop := cg_loop_break sc (unprec_step sc dot action) tolerance max_iterations
    tolerance i max_iterations.toNat 0 (unprec_init sc dot action rhs) (by omega) hfirst hconv
  unfold conjugate_gradient_unprec
  rw [hloop]
  simp
  exact ⟨rfl, rfl⟩

/-- C1. Non-convergence of `conjugate_gradient_unprec`: if in none of the `max_iterations`
loop iterations the updated residual `r` satisfies `sqrt(Re<r,r>) < tolerance`, the returned
SolutionWrapper has `iterations == max_iterations` and `residual == tolerance`; with
`max_iterations ≤ 0` the loop body never runs and the same holds. -/
theorem unprec_non_convergence (sc : Scalar R K) (dot : F → F → K) (action : Action F) (rhs : F)
    (max_iterations : Int) (tolerance : R)
    (h : ∀ j : Nat, (j : Int) < max_iterations →
      ¬ sc.sqrt (sc.real (dot (unprec_body sc dot action rhs j).r
          (unprec_body sc dot action rhs j).r)) < tolerance) :
    (conjugate_gradient_unprec sc dot action rhs max_iterations tolerance).iterations
        = max_iterations
      ∧ (conjugate_gradient_unprec sc dot action rhs max_iterations tolerance).residual
        = tolerance := by
  have hloop := cg_loop_exhausted sc (unprec_step sc dot action) tolerance max_iterations
    tolerance max_iterations.toNat 0 (unprec_init sc dot action rhs)
    (fun j hj => h j (by omega))
  unfold conjugate_gradient_unprec
  rw [hloop]
  exact ⟨rfl, rfl⟩

/-- C2. Convergence of `conjugate_gradient_unprec`: if iteration `i` (0-based, `i <
max_iterations`) is the first whose residual `r`, after `r -= alpha * Ap`, satisfies
`sqrt(Re<r,r>) < tolerance`, the solver stops there: it returns `iterations == i + 1` and
`residual == sqrt(Re<r,r>)` of that iteration, which is below `tolerance`, and the returned
field is `remove_hermiticity` of the zero field after exactly `i + 1` updates `x += alpha * p`. -/
theorem unprec_convergence (sc : Scalar R K) (dot : F → F → K) (action : Action F) (rhs : F)
    (max_iterations : Int) (tolerance : R) (i : Nat) (hi : (i : Int) < max_iterations)
    (hfirst : ∀ j : Nat, j < i →
      ¬ sc.sqrt (sc.real (dot (unprec_body sc dot action rhs j).r
          (unprec_body sc dot action rhs j).r)) < tolerance)
    (hconv : sc.sqrt (sc.real (dot (unprec_body sc dot action rhs i).r
        (unprec_body sc dot action rhs i).r)) < tolerance) :
    (conjugate_gradient_unprec sc dot action rhs max_iterations tolerance).iterations = i + 1
      ∧ (conjugate_gradient_unprec sc dot action rhs max_iterations tolerance).residual
        = sc.sqrt (sc.real (dot (unprec_body sc dot action rhs i).r
            (unprec_body sc dot action rhs i).r))
      ∧ (conjugate_gradient_unprec sc dot action rhs max_iterations tolerance).residual
        < tolerance
      ∧ (conjugate_gradient_unprec sc dot action rhs max_iterations tolerance).field
        = action.remove_hermiticity (unprec_updates sc dot action rhs (i + 1)) := by
  have hloop := cg_loop_break sc (unprec_step sc dot action) tolerance max_iterations
    tolerance i max_iterations.toNat 0 (unprec_init sc dot action rhs) (by omega) hfirst hconv
  have hsol : (unprec_body sc dot action rhs i).solution
      = unprec_updates sc dot action rhs (i + 1) := by
    show (cg_vars (unprec_step sc dot action) (unprec_init sc dot action rhs) i).solution
        + (unprec_body sc dot action rhs i).alpha • (unprec_body sc dot action rhs i).p
      = unprec_updates sc dot action rhs i
        + (unprec_body sc dot action rhs i).alpha • (unprec_body sc dot action rhs i).p
    rw [unprec_vars_solution]
  unfold conjugate_gradient_unprec
  rw [hloop]
  refine ⟨by simp, rfl, hconv, ?_⟩
  show action.remove_hermiticity (unprec_body sc dot action rhs i).solution = _
  rw [hsol]

/-- Witness of C1: on `diag(1, 2) x = (3, 4)` with `max_iterations = 1` and `tolerance = 1`
the single iteration ends with residual norm `60 / 41`. -/
theorem unprec_non_convergence_witness :
    (∀ j : Nat, (j : Int) < 1 →
      ¬ (exact_arithmetic Real.sqrt).sqrt ((exact_arithmetic Real.sqrt).real
        (dot_fermions
          (unprec_body (exact_arithmetic Real.sqrt) dot_fermions diag_action rhs34 j).r
          (unprec_body (exact_arithmetic Real.sqrt) dot_fermions diag_action rhs34 j).r)) < 1)
      ∧ (conjugate_gradient_unprec (exact_arithmetic Real.sqrt) dot_fermions diag_action rhs34
          1 1).iterations = 1
      ∧ (conjugate_gradient_unprec (exact_arithmetic Real.sqrt) dot_fermions diag_action rhs34
          1 1).residual = 1 :=
  have h : ∀ j : Nat, (j : Int) < 1 →
      ¬ (exact_arithmetic Real.sqrt).sqrt ((exact_arithmetic Real.sqrt).real
        (dot_fermions
          (unprec_body (exact_arithmetic Real.sqrt) dot_fermions diag_action rhs34 j).r
          (unprec_body (exact_arithmetic Real.sqrt) dot_fermions diag_action rhs34 j).r))
        < 1 := by
    intro j hj
    obtain rfl : j = 0 := by omega
    rw [diag_norm0]
    norm_num
  ⟨h, unprec_non_convergence (exact_arithmetic Real.sqrt) dot_fermions diag_action rhs34 1 1 h⟩

/-- Witness of C2: on `diag(1, 2) x = (3, 4)` with `max_iterations = 5` and `tolerance = 1`
iteration 1 is the first to meet the test; the solver returns 2 iterations, residual 0. -/
theorem unprec_convergence_witness :
    ((1 : Nat) : Int) < 5
      ∧ (∀ j : Nat, j < 1 →
        ¬ (exact_arithmetic Real.sqrt).sqrt ((exact_arithmetic Real.sqrt).real
          (dot_fermions
            (unprec_body (exact_arithmetic Real.sqrt) dot_fermions diag_action rhs34 j).r
            (unprec_body (exact_arithmetic Real.sqrt) dot_fermions diag_action rhs34 j).r)) < 1)
      ∧ (exact_arithmetic Real.sqrt).sqrt ((exact_arithmetic Real.sqrt).real
          (dot_fermions
            (unprec_body (exact_arithmetic Real.sqrt) dot_fermions diag_action rhs34 1).r
            (unprec_body (exact_arithmetic Real.sqrt) dot_fermions diag_action rhs34 1).r)) < 1
      ∧ (conjugate_gradient_unprec (exact_arithmetic Real.sqrt) dot_fermions diag_action rhs34
          5 1).iterations = 2
      ∧ (conjugate_gradient_unprec (exact_arithmetic Real.sqrt) dot_fermions diag_action rhs34
          5 1).residual = 0 :=
  have hi : ((1 : Nat) : Int) < 5 := by norm_num
  have h : ∀ j : Nat, j < 1 →
      ¬ (exact_arithmetic Real.sqrt).sqrt ((exact_arithmetic Real.sqrt).real
        (dot_fermions
          (unprec_body (exact_arithmetic Real.sqrt) dot_fermions diag_action rhs34 j).r
          (unprec_body (exact_arithmetic Real.sqrt) dot_fermions diag_action rhs34 j).r))
        < 1 := by
    intro j hj
    obtain rfl : j = 0 := by omega
    rw [diag_norm0]
    norm_num
  have hc : (exact_arithmetic Real.sqrt).sqrt ((exact_arithmetic Real.sqrt).real
      (dot_fermions
        (unprec_body (exact_arithmetic Real.sqrt) dot_fermions diag_action rhs34 1).r
        (unprec_body (exact_arithmetic Real.sqrt) dot_fermions diag_action rhs34 1).r))
      < 1 := by
    rw [diag_norm1]
    norm_num
  have key := unprec_convergence (exact_arithmetic Real.sqrt) dot_fermions diag_action rhs34
    5 1 1 hi h hc
  ⟨hi, h, hc, by simpa using key.1, by rw [key.2.1, diag_norm1]⟩

end unprec_control

section identity_operator

variable {n : Nat}

theorem identity_body0 (action : Action (Fin n → ℂ)) (hfull : ∀ x, action.apply_full x = x)
    (happly : ∀ x, action.apply_hermiticity x = x)
    (b : Fin n → ℂ) (hb : b ≠ 0) (hremove : ∀ x, action.remove_hermiticity x = x) :
    unprec_body (exact_arithmetic Real.sqrt) dot_fermions action b 0
      = ⟨b, b, 1, b, 0, 0⟩ := by
  have hne : dot_fermions b b ≠ 0 := fun h => hb ((dot_self_eq_zero b).mp h)
  have halpha : ((dot_fermions b b).re : ℂ) / dot_fermions b b = 1 := by
    rw [dot_self_ofReal, div_self hne]
  simp [unprec_body, cg_vars, unprec_init, unprec_step, exact_arithmetic, hfull, happly,
    hremove, halpha, dot_zero_right]

/-- C3. Identity-operator scenario: when `apply_full`, `apply_hermiticity` and
`remove_hermiticity` are the identity map, then in exact arithmetic for every non-zero
right-hand side `b`, every `max_iterations ≥ 1` and every `tolerance > 0`,
`conjugate_gradient_unprec` returns `iterations == 1`, `residual == 0` and a field equal to
`b`. -/
theorem unprec_identity_operator (action : Action (Fin n → ℂ))
    (hfull : ∀ x, action.apply_full x = x) (happly : ∀ x, action.apply_hermiticity x = x)
    (hremove : ∀ x, action.remove_hermiticity x = x) (b : Fin n → ℂ) (hb : b ≠ 0)
    (max_iterations : Int) (hmax : 1 ≤ max_iterations) (tolerance : ℝ) (htol : 0 < tolerance) :
    (conjugate_gradient_unprec (exact_arithmetic Real.sqrt) dot_fermions action b
        max_iterations tolerance).iterations = 1
      ∧ (conjugate_gradient_unprec (exact_arithmetic Real.sqrt) dot_fermions action b
        max_iterations tolerance).residual = 0
      ∧ (conjugate_gradient_unprec (exact_arithmetic Real.sqrt) dot_fermions action b
        max_iterations tolerance).field = b := by
  have hbody := identity_body0 action hfull happly b hb hremove
  have hnorm : (exact_arithmetic Real.sqrt).sqrt ((exact_arithmetic Real.sqrt).real
      (dot_fermions (unprec_body (exact_arithmetic Real.sqrt) dot_fermions action b 0).r
        (unprec_body (exact_arithmetic Real.sqrt) dot_fermions action b 0).r)) = 0 := by
    rw [hbody]
    simp [exact_arithmetic, dot_zero_right]
  have key := unprec_result_break (exact_arithmetic Real.sqrt) dot_fermions action b
    max_iterations tolerance 0 (by simpa using hmax) (fun j hj => absurd hj (Nat.not_lt_zero j))
    (by rw [hnorm]; exact htol)
  rw [key, hnorm, hremove, hbody]
  simp

/-- Witness of C3: the two-site field `(3, 4)` under the identity action. -/
theorem unprec_identity_operator_witness :
    (∀ x, identity_action.apply_full x = x) ∧ (∀ x, identity_action.apply_hermiticity x = x)
      ∧ (∀ x, identity_action.remove_hermiticity x = x) ∧ rhs34 ≠ 0 ∧ (1 : Int) ≤ 1
      ∧ (0 : ℝ) < 1 / 1000
      ∧ (conjugate_gradient_unprec (exact_arithmetic Real.sqrt) dot_fermions identity_action
          rhs34 1 (1 / 1000)).iterations = 1
      ∧ (conjugate_gradient_unprec (exact_arithmetic Real.sqrt) dot_fermions identity_action
          rhs34 1 (1 / 1000)).residual = 0
      ∧ (conjugate_gradient_unprec (exact_arithmetic Real.sqrt) dot_fermions identity_action
          rhs34 1 (1 / 1000)).field = rhs34 :=
  have hb : rhs34 ≠ 0 := by
    intro h
    have h0 := congrFun h 0
    simp [rhs34] at h0
  ⟨fun _ => rfl, fun _ => rfl, fun _ => rfl, hb, le_refl 1, by norm_num,
    unprec_identity_operator identity_action (fun _ => rfl) (fun _ => rfl) (fun _ => rfl) rhs34
      hb 1 (le_refl 1) (1 / 1000) (by norm_num)⟩

end identity_operator

section segments

variable {S : Type} {v : Nat}

theorem assign_segment_inside (x : Fin v → S) (offset size : Nat) (e : Fin size → S)
    (k : Fin v) (h : offset ≤ k.val ∧ k.val < offset + size) :
    assign_segment x offset size e k = e ⟨k.val - offset, by omega⟩ := by
  simp only [assign_segment, dif_pos h]

theorem assign_segment_outside (x : Fin v → S) (offset size : Nat) (e : Fin size → S)
    (k : Fin v) (h : ¬ (offset ≤ k.val ∧ k.val < offset + size)) :
    assign_segment x offset size e k = x k := by
  simp only [assign_segment, dif_neg h]

theorem segment_apply (x : Fin v → S) (offset size : Nat) (h : offset + size ≤ v)
    (j : Fin size) : segment x offset size h j = x ⟨offset + j.val, by omega⟩ := rfl

end segments

section eoprec_source_facts

variable {S : Type} [Sub S] {volume : Nat}

theorem eoprec_source_inside (action : Action (Fin volume → S)) (rhs : Fin volume → S)
    (k : Fin volume) (h : volume / 2 ≤ k.val ∧ k.val < volume / 2 + volume / 2) :
    eoprec_source action rhs k
      = rhs k - action.apply_odd_even (action.apply_even_even_inv rhs) k := by
  rw [eoprec_source, assign_segment_inside _ _ _ _ k h]
  show rhs ⟨volume / 2 + (k.val - volume / 2), _⟩
    - action.apply_odd_even (action.apply_even_even_inv rhs)
        ⟨volume / 2 + (k.val - volume / 2), _⟩ = _
  have hk : (⟨volume / 2 + (k.val - volume / 2), by omega⟩ : Fin volume) = k :=
    Fin.ext (by simp; omega)
  rw [hk]

theorem eoprec_source_outside (action : Action (Fin volume → S)) (rhs : Fin volume → S)
    (k : Fin volume) (h : k.val < volume / 2 ∨ volume / 2 + volume / 2 ≤ k.val) :
    eoprec_source action rhs k = rhs k := by
  rw [eoprec_source, assign_segment_outside _ _ _ _ k (by omega)]

/-- C8, as amended.  The preconditioned source of `conjugate_gradient_eoprec`, before the
Hermiticity transform: for every index `k` in `[volume/2, volume/2 + volume/2)`, which is
`[volume/2, volume)` when the volume is even, `source[k] == rhs[k] -
apply_odd_even(apply_even_even_inv(rhs))[k]`; for every other index `k`, among them the even
indices `[0, volume/2)`, `source[k] == rhs[k]`. -/
theorem eoprec_source_entries (action : Action (Fin volume → S)) (rhs : Fin volume → S)
    (k : Fin volume) :
    (volume / 2 ≤ k.val ∧ k.val < volume / 2 + volume / 2 →
        eoprec_source action rhs k
          = rhs k - action.apply_odd_even (action.apply_even_even_inv rhs) k)
      ∧ (k.val < volume / 2 ∨ volume / 2 + volume / 2 ≤ k.val →
        eoprec_source action rhs k = rhs k) :=
  ⟨eoprec_source_inside action rhs k, eoprec_source_outside action rhs k⟩

end eoprec_source_facts

section eoprec_facts

variable {R K S : Type} [Div R] [LT R] [DecidableRel (fun a b : R => a < b)] [Div K]
  [Add S] [Sub S] [SMul K S] [SMul R S] {volume : Nat}

/-- C10. Even-site reconstruction in `conjugate_gradient_eoprec`: with `s` the solution field
at loop exit, the returned field satisfies `field[k] == s[k] -
apply_even_even_inv(apply_even_odd(s))[k]` for every even index `k` in `[0, volume/2)` and
`field[k] == s[k]` for every odd index `k` in `[volume/2, volume)`. -/
theorem eoprec_even_reconstruction (sc : Scalar R K)
    (dot : (Fin (volume / 2) → S) → (Fin (volume / 2) → S) → K)
    (action : Action (Fin volume → S)) (r_storage rhs : Fin volume → S) (max_iterations : Int)
    (tolerance : R) (k : Fin volume) :
    (k.val < volume / 2 →
        (conjugate_gradient_eoprec sc dot action r_storage rhs max_iterations tolerance).field k
          = (eoprec_exit sc dot action r_storage rhs max_iterations tolerance).solution k
            - action.apply_even_even_inv (action.apply_even_odd
                (eoprec_exit sc dot action r_storage rhs max_iterations tolerance).solution) k)
      ∧ (volume / 2 ≤ k.val →
        (conjugate_gradient_eoprec sc dot action r_storage rhs max_iterations tolerance).field k
          = (eoprec_exit sc dot action r_storage rhs max_iterations tolerance).solution k) := by
  constructor
  · intro h
    show eoprec_reconstruct action _ k = _
    rw [eoprec_reconstruct, assign_segment_inside _ _ _ _ k (by omega)]
    show (eoprec_exit sc dot action r_storage rhs max_iterations tolerance).solution
        ⟨0 + (k.val - 0), _⟩
      - action.apply_even_even_inv (action.apply_even_odd
          (eoprec_exit sc dot action r_storage rhs max_iterations tolerance).solution)
          ⟨0 + (k.val - 0), _⟩ = _
    have hk : (⟨0 + (k.val - 0), by omega⟩ : Fin volume) = k := Fin.ext (by simp)
    rw [hk]
  · intro h
    show eoprec_reconstruct action _ k = _
    rw [eoprec_reconstruct, assign_segment_outside _ _ _ _ k (by omega)]

/-- C9. `conjugate_gradient_eoprec` uses the termination policy of the unpreconditioned solver,
measured on the odd-site residual: if iteration `i` (0-based, `i < max_iterations`) is the
first whose updated odd-site residual has `sqrt(Re<r_odd,r_odd>) < tolerance`, it returns
`(iterations, residual) == (i + 1, sqrt(Re<r_odd,r_odd>))` of that iteration; if no iteration
meets the test it returns `(max_iterations, tolerance)`. -/
theorem eoprec_termination (sc : Scalar R K)
    (dot : (Fin (volume / 2) → S) → (Fin (volume / 2) → S) → K)
    (action : Action (Fin volume → S)) (r_storage rhs : Fin volume → S) (max_iterations : Int)
    (tolerance : R) :
    (∀ i : Nat, (i : Int) < max_iterations →
        (∀ j : Nat, j < i →
          ¬ sc.sqrt (sc.real (dot
            (segment (eoprec_body sc dot action r_storage rhs j).r (volume / 2) (volume / 2)
              (by omega))
            (segment (eoprec_body sc dot action r_storage rhs j).r (volume / 2) (volume / 2)
              (by omega)))) < tolerance) →
        sc.sqrt (sc.real (dot
            (segment (eoprec_body sc dot action r_storage rhs i).r (volume / 2) (volume / 2)
              (by omega))
            (segment (eoprec_body sc dot action r_storage rhs i).r (volume / 2) (volume / 2)
              (by omega)))) < tolerance →
        (conjugate_gradient_eoprec sc dot action r_storage rhs max_iterations tolerance).iterations
            = i + 1
          ∧ (conjugate_gradient_eoprec sc dot action r_storage rhs max_iterations
              tolerance).residual
            = sc.sqrt (sc.real (dot
                (segment (eoprec_body sc dot action r_storage rhs i).r (volume / 2) (volume / 2)
                  (by omega))
                (segment (eoprec_body sc dot action r_storage rhs i).r (volume / 2) (volume / 2)
                  (by omega)))))
      ∧ ((∀ j : Nat, (j : Int) < max_iterations →
          ¬ sc.sqrt (sc.real (dot
            (segment (eoprec_body sc dot action r_storage rhs j).r (volume / 2) (volume / 2)
              (by omega))
            (segment (eoprec_body sc dot action r_storage rhs j).r (volume / 2) (volume / 2)
              (by omega)))) < tolerance) →
        (conjugate_gradient_eoprec sc dot action r_storage rhs max_iterations tolerance).iterations
            = max_iterations
          ∧ (conjugate_gradient_eoprec sc dot action r_storage rhs max_iterations
              tolerance).residual = tolerance) := by
  constructor
  · intro i hi hfirst hconv
    have hloop := cg_loop_break sc (eoprec_step sc dot action) tolerance max_iterations
      tolerance i max_iterations.toNat 0 (eoprec_init sc dot action r_storage rhs) (by omega)
      hfirst hconv
    unfold conjugate_gradient_eoprec eoprec_exit
    rw [hloop]
    exact ⟨by simp, rfl⟩
  · intro h
    have hloop := cg_loop_exhausted sc (eoprec_step sc dot action) tolerance max_iterations
      tolerance max_iterations.toNat 0 (eoprec_init sc dot action r_storage rhs)
      (fun j hj => h j (by omega))
    unfold conjugate_gradient_eoprec eoprec_exit
    rw [hloop]
    exact ⟨rfl, rfl⟩

end eoprec_facts

section gamma_example

theorem assign_odd_two (x : Fin 2 → ℂ) (e : Fin 1 → ℂ) :
    assign_segment x 1 1 e = ![x 0, e 0] := by
  funext k
  fin_cases k
  · rfl
  · rfl

theorem assign_even_two (x : Fin 2 → ℂ) (e : Fin 1 → ℂ) :
    assign_segment x 0 1 e = ![e 0, x 1] := by
  funext k
  fin_cases k
  · rfl
  · rfl

theorem segment_odd_two (x : Fin 2 → ℂ) (h : 1 + 1 ≤ 2) (j : Fin 1) :
    segment x 1 1 h j = x 1 := by
  fin_cases j
  rfl

theorem segment_even_two (x : Fin 2 → ℂ) (h : 0 + 1 ≤ 2) (j : Fin 1) :
    segment x 0 1 h j = x 0 := by
  fin_cases j
  rfl

theorem gamma_eoprec_init (g : Fin 2 → ℂ) :
    eoprec_init (exact_arithmetic Real.sqrt) dot_fermions gamma_action g rhs11
      = ⟨![1, 0], ![g 0, -1], ![g 0, -1], 1⟩ := by
  simp [eoprec_init, eoprec_source, exact_arithmetic, gamma_action, rhs11, dot_fermions,
    assign_odd_two, segment_odd_two]

theorem gamma_eoprec_step0 (g : Fin 2 → ℂ) :
    eoprec_step (exact_arithmetic Real.sqrt) dot_fermions gamma_action
      ⟨![1, 0], ![g 0, -1], ![g 0, -1], 1⟩
      = ⟨![g 0, -1], ![0, -1], 1, ![1, -1], ![g 0, 0], 0⟩ := by
  simp [eoprec_step, exact_arithmetic, gamma_action, dot_fermions,
    assign_odd_two, segment_odd_two]

theorem gamma_eoprec_body0 (g : Fin 2 → ℂ) :
    eoprec_body (exact_arithmetic Real.sqrt) dot_fermions gamma_action g rhs11 0
      = ⟨![g 0, -1], ![0, -1], 1, ![1, -1], ![g 0, 0], 0⟩ := by
  simp only [eoprec_body, cg_vars, gamma_eoprec_init, gamma_eoprec_step0]

theorem gamma_eoprec_norm0 (g : Fin 2 → ℂ) :
    (exact_arithmetic Real.sqrt).sqrt ((exact_arithmetic Real.sqrt).real (dot_fermions
      (segment (eoprec_body (exact_arithmetic Real.sqrt) dot_fermions gamma_action g rhs11 0).r
        (2 / 2) (2 / 2) (by omega))
      (segment (eoprec_body (exact_arithmetic Real.sqrt) dot_fermions gamma_action g rhs11 0).r
        (2 / 2) (2 / 2) (by omega)))) = 0 := by
  rw [gamma_eoprec_body0]
  simp [exact_arithmetic, dot_fermions, segment_odd_two]

end gamma_example

section eoprec_witnesses

/-- Counterexample to C8 as stated: on a 3-site lattice the odd view `segment(1, 1)` does not
reach index 2, so `source[2] == rhs[2]` although
`apply_odd_even(apply_even_even_inv(rhs))[2] == 1`. -/
theorem eoprec_source_odd_volume :
    ¬ (∀ k : Fin 3, 3 / 2 ≤ k.val → k.val < 3 →
      eoprec_source three_site_action rhs111 k
        = rhs111 k
          - three_site_action.apply_odd_even (three_site_action.apply_even_even_inv rhs111) k) := by
  intro h
  have h2 := h 2 (by decide) (by decide)
  rw [eoprec_source_outside three_site_action rhs111 2 (Or.inr (by decide))] at h2
  simp [three_site_action, rhs111] at h2

/-- Witness of C8 as amended, on the 3-site lattice: entry 1 is preconditioned, entries 0 and 2
are those of the right-hand side. -/
theorem eoprec_source_entries_witness :
    eoprec_source three_site_action rhs111 1 = 0
      ∧ eoprec_source three_site_action rhs111 0 = 1
      ∧ eoprec_source three_site_action rhs111 2 = 1 := by
  refine ⟨?_, ?_, ?_⟩
  · rw [(eoprec_source_entries three_site_action rhs111 1).1 ⟨by decide, by decide⟩]
    simp [three_site_action, rhs111]
  · rw [(eoprec_source_entries three_site_action rhs111 0).2 (Or.inl (by decide))]
    simp [rhs111]
  · rw [(eoprec_source_entries three_site_action rhs111 2).2 (Or.inr (by decide))]
    simp [rhs111]

end eoprec_witnesses

section cg_theory

variable {n : ℕ}

theorem dot_sum_right {ι : Type} (s : Finset ι) (x : Fin n → ℂ) (f : ι → Fin n → ℂ) :
    dot_fermions x (∑ j in s, f j) = ∑ j in s, dot_fermions x (f j) := by
  classical
  induction s using Finset.induction_on with
  | empty => simp [dot_zero_right]
  | insert hj ih => rw [Finset.sum_insert hj, Finset.sum_insert hj, dot_add_right, ih]

/-- The conjugate-gradient recurrences keep every search direction orthogonal to the later
residuals and conjugate to the later search directions, as long as the residuals met so far are
non-zero. -/
theorem cg_orthogonal (A : (Fin n → ℂ) → (Fin n → ℂ))
    (hherm : ∀ x y, dot_fermions x (A y) = dot_fermions (A x) y)
    (hpd : ∀ x, x ≠ 0 → dot_fermions x (A x) ≠ 0)
    (r p : ℕ → Fin n → ℂ) (α : ℕ → ℂ) (ρ : ℕ → ℝ)
    (hp0 : p 0 = r 0)
    (hρ : ∀ j, ρ j = (dot_fermions (r j) (r j)).re)
    (hα : ∀ j, α j = (ρ j : ℂ) / dot_fermions (p j) (A (p j)))
    (hr : ∀ j, r (j + 1) = r j - α j • A (p j))
    (hpn : ∀ j, p (j + 1) = r (j + 1) + ((ρ (j + 1) / ρ j : ℝ) : ℂ) • p j)
    (k : ℕ) (hne : ∀ j, j < k → r j ≠ 0) :
    (∀ i j, i < j → j ≤ k → dot_fermions (p i) (r j) = 0)
      ∧ (∀ i j, i < j → j ≤ k → dot_fermions (p i) (A (p j)) = 0) := by
  induction k with
  | zero => exact ⟨fun i j hij hj => by omega, fun i j hij hj => by omega⟩
  | succ k ih =>
    obtain ⟨I1, I2⟩ := ih (fun j hj => hne j (by omega))
    have hρc : ∀ j, (ρ j : ℂ) = dot_fermions (r j) (r j) := fun j => by
      rw [hρ]; exact dot_self_ofReal _
    have hρne : ∀ j, j ≤ k → (ρ j : ℂ) ≠ 0 := by
      intro j hj
      rw [hρc]
      exact fun h => hne j (by omega) ((dot_self_eq_zero _).mp h)
    have hpr : ∀ j, j ≤ k → dot_fermions (p j) (r j) = (ρ j : ℂ) := by
      intro j hj
      cases j with
      | zero => rw [hp0, hρc]
      | succ j =>
        rw [hpn, dot_add_left, dot_smul_left, I1 j (j + 1) (by omega) hj, mul_zero, add_zero,
          hρc]
    have hpne : ∀ j, j ≤ k → p j ≠ 0 := by
      intro j hj h0
      have h1 := hpr j hj
      rw [h0, dot_zero_left] at h1
      exact hρne j hj h1.symm
    have hd : ∀ j, j ≤ k → dot_fermions (p j) (A (p j)) ≠ 0 := fun j hj => hpd _ (hpne j hj)
    have hαd : ∀ j, j ≤ k → α j * dot_fermions (p j) (A (p j)) = (ρ j : ℂ) := by
      intro j hj
      rw [hα, div_mul_cancel₀ _ (hd j hj)]
    have I1' : ∀ i, i ≤ k → dot_fermions (p i) (r (k + 1)) = 0 := by
      intro i hi
      rw [hr, dot_sub_right, dot_smul_right]
      rcases Nat.lt_or_eq_of_le hi with hlt | rfl
      · rw [I1 i k hlt le_rfl, I2 i k hlt le_rfl]
        simp
      · rw [hpr i le_rfl, hαd i le_rfl, sub_self]
    have hrr : ∀ i, i ≤ k → dot_fermions (r i) (r (k + 1)) = 0 := by
      intro i hi
      cases i with
      | zero =>
        rw [← hp0]
        exact I1' 0 hi
      | succ i =>
        have h1 : r (i + 1) = p (i + 1) - ((ρ (i + 1) / ρ i : ℝ) : ℂ) • p i := by
          rw [hpn]
          simp
        rw [h1, dot_sub_left, dot_smul_left, I1' (i + 1) hi, I1' i (by omega)]
        simp
    have I2' : ∀ i, i ≤ k → dot_fermions (p i) (A (p (k + 1))) = 0 := by
      intro i hi
      have hαne : α i ≠ 0 := by
        rw [hα]
        exact div_ne_zero (hρne i hi) (hd i hi)
      have hAp : (starRingEnd ℂ) (α i) * dot_fermions (A (p i)) (r (k + 1))
          = dot_fermions (r i) (r (k + 1)) - dot_fermions (r (i + 1)) (r (k + 1)) := by
        rw [← dot_smul_left, ← dot_sub_left]
        congr 1
        rw [hr i]
        simp
      rw [hherm, hpn, dot_add_right, dot_smul_right]
      rcases Nat.lt_or_eq_of_le hi with hlt | rfl
      · have h1 : dot_fermions (A (p i)) (r (k + 1)) = 0 := by
          have h2 : (starRingEnd ℂ) (α i) * dot_fermions (A (p i)) (r (k + 1)) = 0 := by
            rw [hAp, hrr i hi, hrr (i + 1) (by omega), sub_zero]
          exact (mul_eq_zero.mp h2).resolve_left (by simpa using hαne)
        rw [h1, ← hherm, I2 i k hlt le_rfl]
        simp
      · rw [hrr i le_rfl, ← hρc, zero_sub] at hAp
        have hreal : (starRingEnd ℂ) (dot_fermions (p i) (A (p i)))
            = dot_fermions (p i) (A (p i)) := by
          rw [dot_conj, ← hherm]
        have hconjα : (starRingEnd ℂ) (α i) = α i := by
          rw [hα, map_div₀, Complex.conj_ofReal, hreal]
        rw [hconjα] at hAp
        rw [← hherm (p i) (p i)]
        have hX : dot_fermions (A (p i)) (r (i + 1)) = -(ρ (i + 1) : ℂ) / α i := by
          rw [eq_div_iff hαne, mul_comm]
          exact hAp
        rw [hX, hα]
        have h1 := hρne i le_rfl
        have h2 := hd i le_rfl
        push_cast
        field_simp
    refine ⟨fun i j hij hj => ?_, fun i j hij hj => ?_⟩
    · rcases Nat.lt_or_eq_of_le hj with hlt | rfl
      · exact I1 i j hij (by omega)
      · exact I1' i (by omega)
    · rcases Nat.lt_or_eq_of_le hj with hlt | rfl
      · exact I2 i j hij (by omega)
      · exact I2' i (by omega)

end cg_theory
section cg_dimension

variable {n : ℕ}

/-- A family of `n + 1` non-zero, mutually orthogonal fields of `n` complex numbers does not
exist. -/
theorem orthogonal_family_bound (f : ℕ → Fin n → ℂ)
    (horth : ∀ i j, i < j → j ≤ n → dot_fermions (f i) (f j) = 0) :
    ∃ j, j ≤ n ∧ f j = 0 := by
  by_contra hcon
  push_neg at hcon
  have horth' : ∀ i j : Fin (n + 1), i ≠ j → dot_fermions (f i) (f j) = 0 := by
    intro i j hij
    rcases Nat.lt_or_gt_of_ne (fun h => hij (Fin.ext h)) with h | h
    · exact horth i j h (by omega)
    · rw [← dot_conj, horth j i h (by omega), map_zero]
  have hli : LinearIndependent ℂ (fun j : Fin (n + 1) => f j) := by
    rw [Fintype.linearIndependent_iff]
    intro g hg i
    have h1 : dot_fermions (f i) (∑ j : Fin (n + 1), g j • f j) = g i * dot_fermions (f i) (f i) := by
      rw [dot_sum_right, Finset.sum_eq_single i]
      · rw [dot_smul_right]
      · intro j _ hji
        rw [dot_smul_right, horth' i j (Ne.symm hji), mul_zero]
      · intro h
        exact absurd (Finset.mem_univ i) h
    rw [hg, dot_zero_right] at h1
    have h2 : dot_fermions (f i) (f i) ≠ 0 :=
      fun h => hcon i (by omega) ((dot_self_eq_zero _).mp h)
    exact (mul_eq_zero.mp h1.symm).resolve_right h2
  have hcard := hli.fintype_card_le_finrank
  rw [Module.finrank_fintype_fun_eq_card, Fintype.card_fin, Fintype.card_fin] at hcard
  omega

end cg_dimension
section cg_residual

variable {n : ℕ}

/-- Under the conjugate-gradient recurrences on fields of `n` complex numbers one of the
residuals `r 0, ..., r n` is zero. -/
theorem cg_residual_vanishes (A : (Fin n → ℂ) → (Fin n → ℂ))
    (hherm : ∀ x y, dot_fermions x (A y) = dot_fermions (A x) y)
    (hpd : ∀ x, x ≠ 0 → dot_fermions x (A x) ≠ 0)
    (r p : ℕ → Fin n → ℂ) (α : ℕ → ℂ) (ρ : ℕ → ℝ)
    (hp0 : p 0 = r 0)
    (hρ : ∀ j, ρ j = (dot_fermions (r j) (r j)).re)
    (hα : ∀ j, α j = (ρ j : ℂ) / dot_fermions (p j) (A (p j)))
    (hr : ∀ j, r (j + 1) = r j - α j • A (p j))
    (hpn : ∀ j, p (j + 1) = r (j + 1) + ((ρ (j + 1) / ρ j : ℝ) : ℂ) • p j) :
    ∃ j, j ≤ n ∧ r j = 0 := by
  by_contra hcon
  push_neg at hcon
  obtain ⟨I1, -⟩ := cg_orthogonal A hherm hpd r p α ρ hp0 hρ hα hr hpn n
    (fun j hj => hcon j (by omega))
  have horth : ∀ i j, i < j → j ≤ n → dot_fermions (r i) (r j) = 0 := by
    intro i j hij hj
    cases i with
    | zero =>
      rw [← hp0]
      exact I1 0 j hij hj
    | succ i =>
      have h1 : r (i + 1) = p (i + 1) - ((ρ (i + 1) / ρ i : ℝ) : ℂ) • p i := by
        rw [hpn]
        simp
      rw [h1, dot_sub_left, dot_smul_left, I1 (i + 1) j hij hj, I1 i j (by omega) hj]
      simp
  obtain ⟨j, hj, h0⟩ := orthogonal_family_bound r horth
  exact hcon j hj h0

end cg_residual

section unprec_trace

variable {n : ℕ} (A : (Fin n → ℂ) → (Fin n → ℂ)) (action : Action (Fin n → ℂ))
  (b : Fin n → ℂ)

theorem unprec_trace_init (hfull : ∀ x, action.apply_full x = A x)
    (happly : ∀ x, action.apply_hermiticity x = x) (hzero : A 0 = 0) :
    unprec_init (exact_arithmetic Real.sqrt) dot_fermions action b
      = ⟨0, b, b, (dot_fermions b b).re⟩ := by
  simp [unprec_init, exact_arithmetic, hfull, happly, hzero]

theorem unprec_trace_step (hfull : ∀ x, action.apply_full x = A x)
    (happly : ∀ x, action.apply_hermiticity x = x)
    (hremove : ∀ x, action.remove_hermiticity x = x) (s : CGVars ℝ (Fin n → ℂ)) :
    unprec_step (exact_arithmetic Real.sqrt) dot_fermions action s
      = ⟨s.p, A s.p, (s.prev_residual : ℂ) / dot_fermions s.p (A s.p),
          s.solution + ((s.prev_residual : ℂ) / dot_fermions s.p (A s.p)) • s.p,
          s.r - ((s.prev_residual : ℂ) / dot_fermions s.p (A s.p)) • A s.p,
          (dot_fermions (s.r - ((s.prev_residual : ℂ) / dot_fermions s.p (A s.p)) • A s.p)
            (s.r - ((s.prev_residual : ℂ) / dot_fermions s.p (A s.p)) • A s.p)).re⟩ := by
  simp [unprec_step, exact_arithmetic, hfull, happly, hremove]

theorem unprec_trace_prev (hfull : ∀ x, action.apply_full x = A x)
    (happly : ∀ x, action.apply_hermiticity x = x)
    (hremove : ∀ x, action.remove_hermiticity x = x) (hzero : A 0 = 0) (j : ℕ) :
    (cg_vars (unprec_step (exact_arithmetic Real.sqrt) dot_fermions action)
        (unprec_init (exact_arithmetic Real.sqrt) dot_fermions action b) j).prev_residual
      = (dot_fermions
          (cg_vars (unprec_step (exact_arithmetic Real.sqrt) dot_fermions action)
            (unprec_init (exact_arithmetic Real.sqrt) dot_fermions action b) j).r
          (cg_vars (unprec_step (exact_arithmetic Real.sqrt) dot_fermions action)
            (unprec_init (exact_arithmetic Real.sqrt) dot_fermions action b) j).r).re := by
  cases j with
  | zero => simp [cg_vars, unprec_trace_init A action b hfull happly hzero]
  | succ j => simp [cg_vars, cg_advance, unprec_trace_step A action hfull happly hremove]

/-- With a linear operator and the identity as Hermiticity transform the residual carried by
the loop is `b - A x` for the solution `x` carried by the loop. -/
theorem unprec_trace_residual (hfull : ∀ x, action.apply_full x = A x)
    (happly : ∀ x, action.apply_hermiticity x = x)
    (hremove : ∀ x, action.remove_hermiticity x = x)
    (hadd : ∀ x y, A (x + y) = A x + A y) (hsmul : ∀ (c : ℂ) x, A (c • x) = c • A x) (j : ℕ) :
    (cg_vars (unprec_step (exact_arithmetic Real.sqrt) dot_fermions action)
        (unprec_init (exact_arithmetic Real.sqrt) dot_fermions action b) j).r
      = b - A (cg_vars (unprec_step (exact_arithmetic Real.sqrt) dot_fermions action)
        (unprec_init (exact_arithmetic Real.sqrt) dot_fermions action b) j).solution := by
  have hzero : A 0 = 0 := by
    have h := hsmul 0 0
    simpa using h
  induction j with
  | zero => simp [cg_vars, unprec_trace_init A action b hfull happly hzero, hzero]
  | succ j ih =>
    simp only [cg_vars, cg_advance, unprec_trace_step A action hfull happly hremove]
    rw [ih, hadd, hsmul]
    abel

end unprec_trace
section unprec_hpd

variable {n : ℕ}

/-- With a Hermitian positive-definite operator and the identity as Hermiticity transform,
some iteration among the first `n` of `conjugate_gradient_unprec` ends with a zero residual. -/
theorem unprec_residual_vanishes (A : (Fin n → ℂ) → (Fin n → ℂ)) (action : Action (Fin n → ℂ))
    (b : Fin n → ℂ) (hb : b ≠ 0) (hfull : ∀ x, action.apply_full x = A x)
    (happly : ∀ x, action.apply_hermiticity x = x)
    (hremove : ∀ x, action.remove_hermiticity x = x)
    (hsmul : ∀ (c : ℂ) x, A (c • x) = c • A x)
    (hherm : ∀ x y, dot_fermions x (A y) = dot_fermions (A x) y)
    (hpd : ∀ x, x ≠ 0 → dot_fermions x (A x) ≠ 0) :
    ∃ j, j < n ∧ (unprec_body (exact_arithmetic Real.sqrt) dot_fermions action b j).r = 0 := by
  have hzero : A 0 = 0 := by
    have h := hsmul 0 0
    simpa using h
  obtain ⟨j, hj, h0⟩ := cg_residual_vanishes A hherm hpd
    (fun j => (cg_vars (unprec_step (exact_arithmetic Real.sqrt) dot_fermions action)
      (unprec_init (exact_arithmetic Real.sqrt) dot_fermions action b) j).r)
    (fun j => (cg_vars (unprec_step (exact_arithmetic Real.sqrt) dot_fermions action)
      (unprec_init (exact_arithmetic Real.sqrt) dot_fermions action b) j).p)
    (fun j => (unprec_body (exact_arithmetic Real.sqrt) dot_fermions action b j).alpha)
    (fun j => (cg_vars (unprec_step (exact_arithmetic Real.sqrt) dot_fermions action)
      (unprec_init (exact_arithmetic Real.sqrt) dot_fermions action b) j).prev_residual)
    (by simp [cg_vars, unprec_trace_init A action b hfull happly hzero])
    (unprec_trace_prev A action b hfull happly hremove hzero)
    (fun j => by simp [unprec_body, unprec_trace_step A action hfull happly hremove])
    (fun j => by
      simp [unprec_body, cg_vars, cg_advance, unprec_trace_step A action hfull happly hremove])
    (fun j => by
      simp only [cg_vars, cg_advance, unprec_trace_step A action hfull happly hremove]
      rw [real_smul_eq])
  cases j with
  | zero =>
    exfalso
    apply hb
    simpa [cg_vars, unprec_trace_init A action b hfull happly hzero] using h0
  | succ j => exact ⟨j, by omega, h0⟩

open ComplexOrder in
/-- C4. Correctness of `conjugate_gradient_unprec`: for every Hermitian positive-definite
matrix `A` of dimension `n` (the Hermiticity transform being the identity), every non-zero
right-hand side `b`, every `tolerance > 0` and every `max_iterations ≥ n`, in exact arithmetic
the solver stops on convergence after at least one and at most `n` iterations, and the returned
field `x` satisfies `||b - A x|| == residual < tolerance`; when the returned residual is `0`,
`x` is the solution `A⁻¹ b` of `A x = b`. -/
theorem unprec_hpd_converges (A : Matrix (Fin n) (Fin n) ℂ) (hA : A.PosDef)
    (action : Action (Fin n → ℂ)) (hfull : ∀ x, action.apply_full x = A.mulVec x)
    (happly : ∀ x, action.apply_hermiticity x = x)
    (hremove : ∀ x, action.remove_hermiticity x = x) (b : Fin n → ℂ) (hb : b ≠ 0)
    (tolerance : ℝ) (htol : 0 < tolerance) (max_iterations : Int)
    (hmax : (n : Int) ≤ max_iterations) :
    1 ≤ (conjugate_gradient_unprec (exact_arithmetic Real.sqrt) dot_fermions action b
        max_iterations tolerance).iterations
      ∧ (conjugate_gradient_unprec (exact_arithmetic Real.sqrt) dot_fermions action b
        max_iterations tolerance).iterations ≤ n
      ∧ Real.sqrt (dot_fermions
          (b - A.mulVec (conjugate_gradient_unprec (exact_arithmetic Real.sqrt) dot_fermions
            action b max_iterations tolerance).field)
          (b - A.mulVec (conjugate_gradient_unprec (exact_arithmetic Real.sqrt) dot_fermions
            action b max_iterations tolerance).field)).re
        = (conjugate_gradient_unprec (exact_arithmetic Real.sqrt) dot_fermions action b
          max_iterations tolerance).residual
      ∧ (conjugate_gradient_unprec (exact_arithmetic Real.sqrt) dot_fermions action b
        max_iterations tolerance).residual < tolerance
      ∧ ((conjugate_gradient_unprec (exact_arithmetic Real.sqrt) dot_fermions action b
          max_iterations tolerance).residual = 0 →
        A.mulVec (conjugate_gradient_unprec (exact_arithmetic Real.sqrt) dot_fermions action b
          max_iterations tolerance).field = b
        ∧ (conjugate_gradient_unprec (exact_arithmetic Real.sqrt) dot_fermions action b
          max_iterations tolerance).field = A⁻¹.mulVec b) := by
  classical
  have hsmul : ∀ (c : ℂ) x, A.mulVec (c • x) = c • A.mulVec x := fun c x =>
    Matrix.mulVec_smul A c x
  have hadd : ∀ x y, A.mulVec (x + y) = A.mulVec x + A.mulVec y := fun x y =>
    Matrix.mulVec_add A x y
  have hherm : ∀ x y, dot_fermions x (A.mulVec y) = dot_fermions (A.mulVec x) y := by
    intro x y
    rw [dot_eq_dotProduct, dot_eq_dotProduct, Matrix.star_mulVec, hA.1.eq,
      Matrix.dotProduct_mulVec]
  have hpd : ∀ x, x ≠ 0 → dot_fermions x (A.mulVec x) ≠ 0 := by
    intro x hx
    rw [dot_eq_dotProduct]
    exact ne_of_gt (hA.2 x hx)
  -- the first iteration that meets the test
  have hex : ∃ j, (exact_arithmetic Real.sqrt).sqrt ((exact_arithmetic Real.sqrt).real
      (dot_fermions (unprec_body (exact_arithmetic Real.sqrt) dot_fermions action b j).r
        (unprec_body (exact_arithmetic Real.sqrt) dot_fermions action b j).r)) < tolerance := by
    obtain ⟨j, -, h0⟩ := unprec_residual_vanishes A.mulVec action b hb hfull happly hremove
      hsmul hherm hpd
    refine ⟨j, ?_⟩
    rw [h0]
    simpa [exact_arithmetic, dot_zero_right] using htol
  have hlt : Nat.find hex < n := by
    obtain ⟨j, hj, h0⟩ := unprec_residual_vanishes A.mulVec action b hb hfull happly hremove
      hsmul hherm hpd
    refine lt_of_le_of_lt (Nat.find_min' hex ?_) hj
    rw [h0]
    simpa [exact_arithmetic, dot_zero_right] using htol
  have key := unprec_result_break (exact_arithmetic Real.sqrt) dot_fermions action b
    max_iterations tolerance (Nat.find hex) (by omega)
    (fun j hj => Nat.find_min hex hj) (Nat.find_spec hex)
  have hsol : (conjugate_gradient_unprec (exact_arithmetic Real.sqrt) dot_fermions action b
      max_iterations tolerance).field
      = (cg_vars (unprec_step (exact_arithmetic Real.sqrt) dot_fermions action)
        (unprec_init (exact_arithmetic Real.sqrt) dot_fermions action b)
        (Nat.find hex + 1)).solution := by
    rw [key, hremove]
    rfl
  have hres : b - A.mulVec (conjugate_gradient_unprec (exact_arithmetic Real.sqrt) dot_fermions
      action b max_iterations tolerance).field
      = (unprec_body (exact_arithmetic Real.sqrt) dot_fermions action b (Nat.find hex)).r := by
    rw [hsol, ← unprec_trace_residual A.mulVec action b hfull happly hremove hadd hsmul]
    rfl
  have hnorm : Real.sqrt (dot_fermions
      (b - A.mulVec (conjugate_gradient_unprec (exact_arithmetic Real.sqrt) dot_fermions
        action b max_iterations tolerance).field)
      (b - A.mulVec (conjugate_gradient_unprec (exact_arithmetic Real.sqrt) dot_fermions
        action b max_iterations tolerance).field)).re
      = (conjugate_gradient_unprec (exact_arithmetic Real.sqrt) dot_fermions action b
        max_iterations tolerance).residual := by
    rw [hres]
    rw [key]
    rfl
  have hit : (conjugate_gradient_unprec (exact_arithmetic Real.sqrt) dot_fermions action b
      max_iterations tolerance).iterations = (Nat.find hex : Int) + 1 := by
    rw [key]
  have hlt2 : (conjugate_gradient_unprec (exact_arithmetic Real.sqrt) dot_fermions action b
      max_iterations tolerance).residual < tolerance := by
    rw [key]
    exact Nat.find_spec hex
  refine ⟨by rw [hit]; omega, by rw [hit]; omega, hnorm, hlt2, ?_⟩
  intro h0
  rw [← hnorm, Real.sqrt_eq_zero (dot_self_re_nonneg _), dot_self_re_eq_zero, sub_eq_zero] at h0
  refine ⟨h0.symm, ?_⟩
  have hdet : IsUnit A.det := (Matrix.isUnit_iff_isUnit_det A).mp hA.isUnit
  calc (conjugate_gradient_unprec (exact_arithmetic Real.sqrt) dot_fermions action b
        max_iterations tolerance).field
      = (A⁻¹ * A).mulVec (conjugate_gradient_unprec (exact_arithmetic Real.sqrt) dot_fermions
          action b max_iterations tolerance).field := by
        rw [Matrix.nonsing_inv_mul A hdet, Matrix.one_mulVec]
    _ = A⁻¹.mulVec (A.mulVec (conjugate_gradient_unprec (exact_arithmetic Real.sqrt)
          dot_fermions action b max_iterations tolerance).field) :=
        (Matrix.mulVec_mulVec _ A⁻¹ A).symm
    _ = A⁻¹.mulVec b := by rw [← h0]

open ComplexOrder in
/-- Witness of C4: the matrix `diag(1, 2)`, the right-hand side `(3, 4)`, `tolerance = 1` and
`max_iterations = 2`. -/
theorem unprec_hpd_converges_witness :
    (Matrix.diagonal ![(1 : ℂ), 2]).PosDef
      ∧ (∀ x, diag_action.apply_full x = (Matrix.diagonal ![(1 : ℂ), 2]).mulVec x)
      ∧ rhs34 ≠ 0 ∧ (0 : ℝ) < 1 ∧ ((2 : ℕ) : Int) ≤ 2
      ∧ 1 ≤ (conjugate_gradient_unprec (exact_arithmetic Real.sqrt) dot_fermions diag_action
          rhs34 2 1).iterations
      ∧ (conjugate_gradient_unprec (exact_arithmetic Real.sqrt) dot_fermions diag_action
          rhs34 2 1).iterations ≤ 2
      ∧ (conjugate_gradient_unprec (exact_arithmetic Real.sqrt) dot_fermions diag_action
          rhs34 2 1).residual < 1 :=
  have hA : (Matrix.diagonal ![(1 : ℂ), 2]).PosDef := by
    refine Matrix.PosDef.diagonal (fun i => ?_)
    fin_cases i
    · simp
    · simp
  have hfull : ∀ x, diag_action.apply_full x = (Matrix.diagonal ![(1 : ℂ), 2]).mulVec x := by
    intro x
    funext i
    fin_cases i
    · simp [diag_action, Matrix.mulVec_diagonal]
    · simp [diag_action, Matrix.mulVec_diagonal]
  have hb : rhs34 ≠ 0 := by
    intro h
    have h0 := congrFun h 0
    simp [rhs34] at h0
  have key := unprec_hpd_converges (Matrix.diagonal ![(1 : ℂ), 2]) hA diag_action hfull
    (fun _ => rfl) (fun _ => rfl) rhs34 hb 1 one_pos 2 (le_refl _)
  ⟨hA, hfull, hb, one_pos, le_refl _, key.1, key.2.1, key.2.2.2.1⟩

end unprec_hpd

section gamma_unprec

theorem gamma_unprec_init :
    unprec_init (exact_arithmetic Real.sqrt) dot_fermions gamma_action rhs11
      = ⟨0, ![1, -1], ![1, -1], 2⟩ := by
  simp [unprec_init, exact_arithmetic, gamma_action, rhs11, dot_fermions, Fin.sum_univ_two]
  norm_num

theorem gamma_unprec_step0 :
    unprec_step (exact_arithmetic Real.sqrt) dot_fermions gamma_action
      ⟨0, ![1, -1], ![1, -1], 2⟩
      = ⟨![1, -1], ![1, -1], 1, ![1, -1], ![0, 0], 0⟩ := by
  simp [unprec_step, exact_arithmetic, gamma_action, dot_fermions, Fin.sum_univ_two]
  norm_num

theorem gamma_unprec_body0 :
    unprec_body (exact_arithmetic Real.sqrt) dot_fermions gamma_action rhs11 0
      = ⟨![1, -1], ![1, -1], 1, ![1, -1], ![0, 0], 0⟩ := by
  simp only [unprec_body, cg_vars, gamma_unprec_init, gamma_unprec_step0]

/-- On the two-site example `diag(1, -1) x = (1, 1)` the unpreconditioned solver stops in
iteration 0 and returns the field `(1, 1)` with residual `0`. -/
theorem gamma_unprec_result :
    conjugate_gradient_unprec (exact_arithmetic Real.sqrt) dot_fermions gamma_action rhs11 1 1
      = ⟨![1, 1], 0, 1⟩ := by
  have hnorm : (exact_arithmetic Real.sqrt).sqrt ((exact_arithmetic Real.sqrt).real
      (dot_fermions
        (unprec_body (exact_arithmetic Real.sqrt) dot_fermions gamma_action rhs11 0).r
        (unprec_body (exact_arithmetic Real.sqrt) dot_fermions gamma_action rhs11 0).r))
      = 0 := by
    rw [gamma_unprec_body0]
    simp [exact_arithmetic, dot_fermions]
  rw [unprec_result_break (exact_arithmetic Real.sqrt) dot_fermions gamma_action rhs11 1 1 0
    (by norm_num) (fun j hj => absurd hj (Nat.not_lt_zero j)) (by rw [hnorm]; norm_num),
    hnorm, gamma_unprec_body0]
  simp [gamma_action]

/-- On the two-site example `diag(1, -1) x = (1, 1)` the preconditioned solver stops in
iteration 0 and returns the field `(1, -1)` with residual `0`, whatever the storage of `r`
held. -/
theorem gamma_eoprec_result (g : Fin 2 → ℂ) :
    conjugate_gradient_eoprec (exact_arithmetic Real.sqrt) dot_fermions gamma_action g rhs11 1 1
      = ⟨![1, -1], 0, 1⟩ := by
  have hloop := cg_loop_break (exact_arithmetic Real.sqrt)
    (eoprec_step (exact_arithmetic Real.sqrt) dot_fermions gamma_action) 1 1 1 0 1 0
    (eoprec_init (exact_arithmetic Real.sqrt) dot_fermions gamma_action g rhs11) (by norm_num)
    (fun j hj => absurd hj (Nat.not_lt_zero j))
    (by
      have h := gamma_eoprec_norm0 g
      simp only [eoprec_body, eoprec_step] at h ⊢
      rw [h]
      norm_num)
  have hbody := gamma_eoprec_body0 g
  simp only [eoprec_body] at hbody
  rw [hbody] at hloop
  simp only [conjugate_gradient_eoprec, eoprec_exit]
  have h1 : (1 : Int).toNat = 1 := rfl
  rw [h1, hloop]
  simp [eoprec_reconstruct, gamma_action, exact_arithmetic, assign_even_two, segment_even_two]

end gamma_unprec
section hermiticity

/-- C5, evaluated at its failing input.  On the two-site example (operator `diag(1, -1)`,
Hermiticity transform `diag(1, -1)`, which is linear and its own exact inverse, right-hand side
`(1, 1)`) `conjugate_gradient_unprec` stops on convergence in iteration 0 and reports residual
`0` for the field `(1, 1)`, whereas the norm of `H(rhs) - H(A(field))` is `2`. -/
theorem unprec_residual_of_returned_field :
    (∀ x, gamma_action.remove_hermiticity (gamma_action.apply_hermiticity x) = x)
      ∧ (∀ x, gamma_action.apply_hermiticity (gamma_action.remove_hermiticity x) = x)
      ∧ (conjugate_gradient_unprec (exact_arithmetic Real.sqrt) dot_fermions gamma_action
          rhs11 1 1).iterations = 1
      ∧ (conjugate_gradient_unprec (exact_arithmetic Real.sqrt) dot_fermions gamma_action
          rhs11 1 1).residual = 0
      ∧ (conjugate_gradient_unprec (exact_arithmetic Real.sqrt) dot_fermions gamma_action
          rhs11 1 1).field = ![1, 1]
      ∧ Real.sqrt (dot_fermions
          (gamma_action.apply_hermiticity rhs11
            - gamma_action.apply_hermiticity (gamma_action.apply_full
                (conjugate_gradient_unprec (exact_arithmetic Real.sqrt) dot_fermions
                  gamma_action rhs11 1 1).field))
          (gamma_action.apply_hermiticity rhs11
            - gamma_action.apply_hermiticity (gamma_action.apply_full
                (conjugate_gradient_unprec (exact_arithmetic Real.sqrt) dot_fermions
                  gamma_action rhs11 1 1).field))).re = 2 := by
  have hinv : ∀ x : Fin 2 → ℂ, (![(![x 0, -x 1] : Fin 2 → ℂ) 0, -(![x 0, -x 1] : Fin 2 → ℂ) 1]
      : Fin 2 → ℂ) = x := by
    intro x
    funext i
    fin_cases i
    · simp
    · simp
  refine ⟨hinv, hinv, ?_, ?_, ?_, ?_⟩
  · rw [gamma_unprec_result]
  · rw [gamma_unprec_result]
  · rw [gamma_unprec_result]
  · rw [gamma_unprec_result]
    have h : (dot_fermions
        (gamma_action.apply_hermiticity rhs11
          - gamma_action.apply_hermiticity (gamma_action.apply_full (![1, 1] : Fin 2 → ℂ)))
        (gamma_action.apply_hermiticity rhs11
          - gamma_action.apply_hermiticity (gamma_action.apply_full (![1, 1] : Fin 2 → ℂ)))).re
        = 2 * 2 := by
      simp [gamma_action, rhs11, dot_fermions, Fin.sum_univ_two]
      norm_num
    rw [h]
    exact Real.sqrt_mul_self (by norm_num)

/-- C7, evaluated at its failing input.  On the two-site example (even volume, operator
`diag(1, -1)` with even-even block `1`, vanishing off-diagonal blocks and Schur complement `-1`
on the odd site, Hermiticity transform `diag(1, -1)`) both solvers stop on convergence with
reported residual `0` for the right-hand side `(1, 1)`; `conjugate_gradient_eoprec` returns
`(1, -1)`, which solves the system, and `conjugate_gradient_unprec` returns `(1, 1)`. -/
theorem eoprec_unprec_fields (r_storage : Fin 2 → ℂ) :
    conjugate_gradient_eoprec (exact_arithmetic Real.sqrt) dot_fermions gamma_action r_storage
        rhs11 1 1 = ⟨![1, -1], 0, 1⟩
      ∧ conjugate_gradient_unprec (exact_arithmetic Real.sqrt) dot_fermions gamma_action
        rhs11 1 1 = ⟨![1, 1], 0, 1⟩
      ∧ (conjugate_gradient_eoprec (exact_arithmetic Real.sqrt) dot_fermions gamma_action
          r_storage rhs11 1 1).field
        ≠ (conjugate_gradient_unprec (exact_arithmetic Real.sqrt) dot_fermions gamma_action
          rhs11 1 1).field
      ∧ gamma_action.apply_full (conjugate_gradient_eoprec (exact_arithmetic Real.sqrt)
          dot_fermions gamma_action r_storage rhs11 1 1).field = rhs11 := by
  refine ⟨gamma_eoprec_result r_storage, gamma_unprec_result, ?_, ?_⟩
  · rw [gamma_eoprec_result, gamma_unprec_result]
    intro h
    have h1 := congrFun h 1
    norm_num at h1
  · rw [gamma_eoprec_result]
    simp [gamma_action, rhs11]

/-- C6, at the failing input: in iteration 0 on the two-site example (`apply_full` and the
Hermiticity transform both `diag(1, -1)`, right-hand side `(1, 1)`) the vector `Ap` that the
code uses for `alpha` and for the residual update is `(1, -1)`, while the sandwich
`apply_hermiticity(apply_full(remove_hermiticity(p)))` is `(1, 1)` for the search direction
`p = (1, -1)` at the start of that iteration.  Lines 61-63 apply the transform to `p` before
`apply_full` and undo it on `p` afterwards; nothing transforms `Ap`. -/
theorem unprec_Ap_not_sandwich :
    (unprec_body (exact_arithmetic Real.sqrt) dot_fermions gamma_action rhs11 0).Ap
      ≠ gamma_action.apply_hermiticity (gamma_action.apply_full
          (gamma_action.remove_hermiticity
            (cg_vars (unprec_step (exact_arithmetic Real.sqrt) dot_fermions gamma_action)
              (unprec_init (exact_arithmetic Real.sqrt) dot_fermions gamma_action rhs11) 0).p)) := by
  rw [gamma_unprec_body0]
  simp only [cg_vars, gamma_unprec_init]
  intro h
  have h1 := congrFun h 1
  simp [gamma_action] at h1
  norm_num at h1

end hermiticity

section unprec_operator

variable {R K F : Type} [Div R] [Div K] [Zero F] [Add F] [Sub F] [SMul K F] [SMul R F]

/-- What lines 61-67 compute in every iteration `j` of `conjugate_gradient_unprec`: the vector
`Ap` used for the step size `alpha` and for the residual update is
`apply_full(apply_hermiticity(p))`, where `p` is the search direction at the start of that
iteration; `alpha` divides `prev_residual` by the dot product of
`remove_hermiticity(apply_hermiticity(p))` with that `Ap`, the residual becomes
`r - alpha * Ap`, and the solution grows by `alpha` times
`remove_hermiticity(apply_hermiticity(p))`. -/
theorem unprec_Ap_operator (sc : Scalar R K) (dot : F → F → K) (action : Action F) (rhs : F)
    (j : Nat) :
    (unprec_body sc dot action rhs j).Ap
        = action.apply_full (action.apply_hermiticity
            (cg_vars (unprec_step sc dot action) (unprec_init sc dot action rhs) j).p)
      ∧ (unprec_body sc dot action rhs j).alpha
        = sc.complex
            (cg_vars (unprec_step sc dot action) (unprec_init sc dot action rhs) j).prev_residual
          / dot (action.remove_hermiticity (action.apply_hermiticity
              (cg_vars (unprec_step sc dot action) (unprec_init sc dot action rhs) j).p))
            (unprec_body sc dot action rhs j).Ap
      ∧ (unprec_body sc dot action rhs j).r
        = (cg_vars (unprec_step sc dot action) (unprec_init sc dot action rhs) j).r
          - (unprec_body sc dot action rhs j).alpha • (unprec_body sc dot action rhs j).Ap
      ∧ (unprec_body sc dot action rhs j).solution
        = (cg_vars (unprec_step sc dot action) (unprec_init sc dot action rhs) j).solution
          + (unprec_body sc dot action rhs j).alpha
            • action.remove_hermiticity (action.apply_hermiticity
                (cg_vars (unprec_step sc dot action) (unprec_init sc dot action rhs) j).p) :=
  ⟨rfl, rfl, rfl, rfl⟩

end unprec_operator

section four_site_example

theorem assign_odd_four (x : Fin 4 → ℂ) (e : Fin 2 → ℂ) :
    assign_segment x 2 2 e = ![x 0, x 1, e 0, e 1] := by
  funext k
  fin_cases k <;> rfl

theorem assign_even_four (x : Fin 4 → ℂ) (e : Fin 2 → ℂ) :
    assign_segment x 0 2 e = ![e 0, e 1, x 2, x 3] := by
  funext k
  fin_cases k <;> rfl

theorem segment_odd_four (x : Fin 4 → ℂ) (h : 2 + 2 ≤ 4) :
    segment x 2 2 h = ![x 2, x 3] := by
  funext j
  fin_cases j <;> rfl

theorem segment_even_four (x : Fin 4 → ℂ) (h : 0 + 2 ≤ 4) :
    segment x 0 2 h = ![x 0, x 1] := by
  funext j
  fin_cases j <;> rfl

theorem four_site_init :
    eoprec_init (exact_arithmetic Real.sqrt) dot_fermions four_site_action 0 rhs1234
      = ⟨![1, 2, 0, 0], ![0, 0, 3, 4], ![0, 0, 3, 4], 25⟩ := by
  simp [eoprec_init, eoprec_source, exact_arithmetic, four_site_action, rhs1234, dot_fermions,
    Fin.sum_univ_two, assign_odd_four, segment_odd_four]
  norm_num

theorem four_site_step0 :
    eoprec_step (exact_arithmetic Real.sqrt) dot_fermions four_site_action
      ⟨![1, 2, 0, 0], ![0, 0, 3, 4], ![0, 0, 3, 4], 25⟩
      = ⟨![0, 0, 3, 4], ![0, 0, 3, 8], 25 / 41, ![1, 2, 75 / 41, 100 / 41],
          ![0, 0, 48 / 41, -36 / 41], 3600 / 1681⟩ := by
  simp [eoprec_step, exact_arithmetic, four_site_action, dot_fermions, Fin.sum_univ_two,
    assign_odd_four, segment_odd_four, Complex.conj_ofNat]
  norm_num

theorem four_site_advance0 :
    cg_advance (⟨![0, 0, 3, 4], ![0, 0, 3, 8], 25 / 41, ![1, 2, 75 / 41, 100 / 41],
        ![0, 0, 48 / 41, -36 / 41], 3600 / 1681⟩ : CGStep ℝ ℂ (Fin 4 → ℂ)) 25
      = ⟨![1, 2, 75 / 41, 100 / 41], ![0, 0, 48 / 41, -36 / 41],
          ![0, 0, 2400 / 1681, -900 / 1681], 3600 / 1681⟩ := by
  simp [cg_advance]
  norm_num

theorem four_site_step1 :
    eoprec_step (exact_arithmetic Real.sqrt) dot_fermions four_site_action
      ⟨![1, 2, 75 / 41, 100 / 41], ![0, 0, 48 / 41, -36 / 41],
        ![0, 0, 2400 / 1681, -900 / 1681], 3600 / 1681⟩
      = ⟨![0, 0, 2400 / 1681, -900 / 1681], ![0, 0, 2400 / 1681, -1800 / 1681], 41 / 50,
          ![1, 2, 3, 2], ![0, 0, 0, 0], 0⟩ := by
  simp [eoprec_step, exact_arithmetic, four_site_action, dot_fermions, Fin.sum_univ_two,
    assign_odd_four, segment_odd_four, Complex.conj_ofNat]
  norm_num

theorem four_site_body0 :
    eoprec_body (exact_arithmetic Real.sqrt) dot_fermions four_site_action 0 rhs1234 0
      = ⟨![0, 0, 3, 4], ![0, 0, 3, 8], 25 / 41, ![1, 2, 75 / 41, 100 / 41],
          ![0, 0, 48 / 41, -36 / 41], 3600 / 1681⟩ := by
  simp only [eoprec_body, cg_vars, four_site_init, four_site_step0]

theorem four_site_body1 :
    eoprec_body (exact_arithmetic Real.sqrt) dot_fermions four_site_action 0 rhs1234 1
      = ⟨![0, 0, 2400 / 1681, -900 / 1681], ![0, 0, 2400 / 1681, -1800 / 1681], 41 / 50,
          ![1, 2, 3, 2], ![0, 0, 0, 0], 0⟩ := by
  simp only [eoprec_body, cg_vars, four_site_init, four_site_step0, four_site_advance0,
    four_site_step1]

/-- The odd-site residual norm after iteration 0 of the 4-site example is `60 / 41`. -/
theorem four_site_norm0 :
    (exact_arithmetic Real.sqrt).sqrt ((exact_arithmetic Real.sqrt).real (dot_fermions
      (segment (eoprec_body (exact_arithmetic Real.sqrt) dot_fermions four_site_action 0
        rhs1234 0).r (4 / 2) (4 / 2) (by omega))
      (segment (eoprec_body (exact_arithmetic Real.sqrt) dot_fermions four_site_action 0
        rhs1234 0).r (4 / 2) (4 / 2) (by omega)))) = 60 / 41 := by
  rw [four_site_body0]
  have h : Complex.re (dot_fermions
      (segment (![0, 0, 48 / 41, -36 / 41] : Fin 4 → ℂ) (4 / 2) (4 / 2) (by omega))
      (segment (![0, 0, 48 / 41, -36 / 41] : Fin 4 → ℂ) (4 / 2) (4 / 2) (by omega)))
      = (60 / 41) * (60 / 41) := by
    simp [dot_fermions, Fin.sum_univ_two, segment_odd_four, Complex.conj_ofNat]
    norm_num
  show Real.sqrt (Complex.re (dot_fermions
      (segment (![0, 0, 48 / 41, -36 / 41] : Fin 4 → ℂ) (4 / 2) (4 / 2) (by omega))
      (segment (![0, 0, 48 / 41, -36 / 41] : Fin 4 → ℂ) (4 / 2) (4 / 2) (by omega))))
    = 60 / 41
  rw [h]
  exact Real.sqrt_mul_self (by norm_num)

/-- The odd-site residual norm after iteration 1 of the 4-site example is `0`. -/
theorem four_site_norm1 :
    (exact_arithmetic Real.sqrt).sqrt ((exact_arithmetic Real.sqrt).real (dot_fermions
      (segment (eoprec_body (exact_arithmetic Real.sqrt) dot_fermions four_site_action 0
        rhs1234 1).r (4 / 2) (4 / 2) (by omega))
      (segment (eoprec_body (exact_arithmetic Real.sqrt) dot_fermions four_site_action 0
        rhs1234 1).r (4 / 2) (4 / 2) (by omega)))) = 0 := by
  rw [four_site_body1]
  simp [exact_arithmetic, dot_fermions, Fin.sum_univ_two, segment_odd_four]

end four_site_example

section four_site_witnesses

/-- The loop of the 4-site example with `max_iterations = 5`, `tolerance = 1` leaves in
iteration 1 with the solution `(1, 2, 3, 2)`. -/
theorem four_site_exit :
    eoprec_exit (exact_arithmetic Real.sqrt) dot_fermions four_site_action 0 rhs1234 5 1
      = ⟨![1, 2, 3, 2], 0, 2⟩ := by
  have hloop := cg_loop_break (exact_arithmetic Real.sqrt)
    (eoprec_step (exact_arithmetic Real.sqrt) dot_fermions four_site_action) 1 5 1 1 5 0
    (eoprec_init (exact_arithmetic Real.sqrt) dot_fermions four_site_action 0 rhs1234)
    (by norm_num)
    (fun j hj => by
      obtain rfl : j = 0 := by omega
      have h := four_site_norm0
      simp only [eoprec_body, eoprec_step] at h ⊢
      rw [h]
      norm_num)
    (by
      have h := four_site_norm1
      simp only [eoprec_body, eoprec_step] at h ⊢
      rw [h]
      norm_num)
  have hbody := four_site_body1
  simp only [eoprec_body] at hbody
  rw [hbody] at hloop
  have h5 : (5 : Int).toNat = 5 := rfl
  simp only [eoprec_exit, h5, hloop]
  simp [exact_arithmetic]

/-- Witness of C9 on the 4-site example with `tolerance = 1`: with `max_iterations = 5`
iteration 1 is the first to meet the test and the solver returns `(2, 0)`; with
`max_iterations = 1` no iteration meets it and the solver returns `(1, 1)`. -/
theorem eoprec_termination_witness :
    ((conjugate_gradient_eoprec (exact_arithmetic Real.sqrt) dot_fermions four_site_action 0
          rhs1234 5 1).iterations = 2
        ∧ (conjugate_gradient_eoprec (exact_arithmetic Real.sqrt) dot_fermions four_site_action
          0 rhs1234 5 1).residual = 0)
      ∧ ((conjugate_gradient_eoprec (exact_arithmetic Real.sqrt) dot_fermions four_site_action
          0 rhs1234 1 1).iterations = 1
        ∧ (conjugate_gradient_eoprec (exact_arithmetic Real.sqrt) dot_fermions four_site_action
          0 rhs1234 1 1).residual = 1) := by
  constructor
  · have key := (eoprec_termination (exact_arithmetic Real.sqrt) dot_fermions four_site_action
      0 rhs1234 5 1).1 1 (by norm_num)
      (fun j hj => by
        obtain rfl : j = 0 := by omega
        rw [four_site_norm0]
        norm_num)
      (by rw [four_site_norm1]; norm_num)
    exact ⟨by rw [key.1]; norm_num, by rw [key.2, four_site_norm1]⟩
  · exact (eoprec_termination (exact_arithmetic Real.sqrt) dot_fermions four_site_action 0
      rhs1234 1 1).2 (fun j hj => by
        obtain rfl : j = 0 := by omega
        rw [four_site_norm0]
        norm_num)

/-- Witness of C10 on the 4-site example: the loop exits with the solution `(1, 2, 3, 2)` and
the returned field is `(-2, 0, 3, 2)`. -/
theorem eoprec_even_reconstruction_witness :
    (conjugate_gradient_eoprec (exact_arithmetic Real.sqrt) dot_fermions four_site_action 0
        rhs1234 5 1).field 0 = -2
      ∧ (conjugate_gradient_eoprec (exact_arithmetic Real.sqrt) dot_fermions four_site_action 0
        rhs1234 5 1).field 1 = 0
      ∧ (conjugate_gradient_eoprec (exact_arithmetic Real.sqrt) dot_fermions four_site_action 0
        rhs1234 5 1).field 2 = 3
      ∧ (conjugate_gradient_eoprec (exact_arithmetic Real.sqrt) dot_fermions four_site_action 0
        rhs1234 5 1).field 3 = 2 := by
  refine ⟨?_, ?_, ?_, ?_⟩
  · rw [(eoprec_even_reconstruction (exact_arithmetic Real.sqrt) dot_fermions four_site_action
      0 rhs1234 5 1 0).1 (by decide), four_site_exit]
    simp [four_site_action]
    norm_num
  · rw [(eoprec_even_reconstruction (exact_arithmetic Real.sqrt) dot_fermions four_site_action
      0 rhs1234 5 1 1).1 (by decide), four_site_exit]
    simp [four_site_action]
  · rw [(eoprec_even_reconstruction (exact_arithmetic Real.sqrt) dot_fermions four_site_action
      0 rhs1234 5 1 2).2 (by decide), four_site_exit]
    simp
  · rw [(eoprec_even_reconstruction (exact_arithmetic Real.sqrt) dot_fermions four_site_action
      0 rhs1234 5 1 3).2 (by decide), four_site_exit]
    simp

end four_site_witnesses

section loop_outcome

variable {R K F : Type} [Div R] [Add F] [SMul R F]

/-- The loop either leaves at the first iteration that meets the test, or runs all `n`
iterations without meeting it. -/
theorem cg_loop_outcome [LT R] [DecidableRel (fun a b : R => a < b)] (sc : Scalar R K)
    (step : CGVars R F → CGStep R K F) (tolerance : R) (final_iterations : Int)
    (final_residual : R) (n : Nat) (i : Int) (s : CGVars R F) :
    (∃ k, k < n
        ∧ (∀ j, j < k → ¬ sc.sqrt (step (cg_vars step s j)).current_residual < tolerance)
        ∧ sc.sqrt (step (cg_vars step s k)).current_residual < tolerance
        ∧ cg_loop sc step tolerance final_iterations final_residual n i s
          = ⟨(step (cg_vars step s k)).solution,
              sc.sqrt (step (cg_vars step s k)).current_residual, i + k + 1⟩)
      ∨ ((∀ j, j < n → ¬ sc.sqrt (step (cg_vars step s j)).current_residual < tolerance)
        ∧ cg_loop sc step tolerance final_iterations final_residual n i s
          = ⟨(cg_vars step s n).solution, final_residual, final_iterations⟩) := by
  classical
  by_cases h : ∃ k, k < n ∧ sc.sqrt (step (cg_vars step s k)).current_residual < tolerance
  · left
    refine ⟨Nat.find h, (Nat.find_spec h).1, ?_, (Nat.find_spec h).2, ?_⟩
    · intro j hj hlt
      exact Nat.find_min h hj ⟨lt_trans hj (Nat.find_spec h).1, hlt⟩
    · refine cg_loop_break sc step tolerance final_iterations final_residual (Nat.find h) n i s
        (Nat.find_spec h).1 ?_ (Nat.find_spec h).2
      intro j hj hlt
      exact Nat.find_min h hj ⟨lt_trans hj (Nat.find_spec h).1, hlt⟩
  · right
    have h' : ∀ j, j < n → ¬ sc.sqrt (step (cg_vars step s j)).current_residual < tolerance :=
      fun j hj hlt => h ⟨j, hj, hlt⟩
    exact ⟨h', cg_loop_exhausted sc step tolerance final_iterations final_residual n i s h'⟩

/-- Bounds on what a conjugate-gradient loop reports when it starts at `i = 0` with
`final_iterations = max_iterations ≥ 0` and `final_residual = tolerance`. -/
theorem cg_loop_report [Preorder R] [DecidableRel (fun a b : R => a < b)] (sc : Scalar R K)
    (step : CGVars R F → CGStep R K F) (tolerance : R) (max_iterations : Int)
    (hmax : 0 ≤ max_iterations) (s : CGVars R F) :
    (cg_loop sc step tolerance max_iterations tolerance max_iterations.toNat 0 s).iterations
        ≤ max_iterations
      ∧ (cg_loop sc step tolerance max_iterations tolerance max_iterations.toNat 0 s).residual
        ≤ tolerance
      ∧ ((cg_loop sc step tolerance max_iterations tolerance max_iterations.toNat 0 s).residual
          < tolerance
        ↔ ∃ k : Nat, (k : Int) < max_iterations
          ∧ sc.sqrt (step (cg_vars step s k)).current_residual < tolerance)
      ∧ ((cg_loop sc step tolerance max_iterations tolerance max_iterations.toNat 0 s).residual
          = tolerance
        ↔ ¬ ∃ k : Nat, (k : Int) < max_iterations
          ∧ sc.sqrt (step (cg_vars step s k)).current_residual < tolerance) := by
  rcases cg_loop_outcome sc step tolerance max_iterations tolerance max_iterations.toNat 0 s
    with ⟨k, hk, -, hconv, hres⟩ | ⟨hnone, hres⟩
  · have hex : ∃ k : Nat, (k : Int) < max_iterations
        ∧ sc.sqrt (step (cg_vars step s k)).current_residual < tolerance :=
      ⟨k, by omega, hconv⟩
    rw [hres]
    refine ⟨?_, le_of_lt hconv, ⟨fun _ => hex, fun _ => hconv⟩, ⟨fun h => ?_, fun h => ?_⟩⟩
    · show (0 : Int) + k + 1 ≤ max_iterations
      omega
    · exact absurd hconv (by rw [show sc.sqrt (step (cg_vars step s k)).current_residual
        = tolerance from h]; exact lt_irrefl _)
    · exact absurd hex h
  · have hno : ¬ ∃ k : Nat, (k : Int) < max_iterations
        ∧ sc.sqrt (step (cg_vars step s k)).current_residual < tolerance := by
      rintro ⟨k, hk, hlt⟩
      exact hnone k (by omega) hlt
    rw [hres]
    refine ⟨le_refl _, le_refl _, ⟨fun h => absurd h (lt_irrefl _), fun h => absurd h hno⟩,
      ⟨fun _ => hno, fun _ => rfl⟩⟩

end loop_outcome

section report

variable {R K F S : Type} [Div R] [Preorder R] [DecidableRel (fun a b : R => a < b)] [Div K]
  [Zero F] [Add F] [Sub F] [SMul K F] [SMul R F] [Add S] [Sub S] [SMul K S] [SMul R S]
  {volume : Nat}

/-- C19. For `conjugate_gradient_unprec` and `conjugate_gradient_eoprec` and every input with
`max_iterations ≥ 0`, in an arithmetic whose `<` and `≤` form an order (exact arithmetic among
them): the returned `iterations` is `≤ max_iterations` and the returned `residual` is
`≤ tolerance`; the returned residual is `< tolerance` exactly when the loop stopped on the
convergence test, that is when one of its `max_iterations` iterations meets
`sqrt(Re<r,r>) < tolerance`, and it equals `tolerance` exactly when the loop did not. -/
theorem solvers_report_bounds (sc : Scalar R K) (dot : F → F → K) (action : Action F) (rhs : F)
    (dot_odd : (Fin (volume / 2) → S) → (Fin (volume / 2) → S) → K)
    (action_eo : Action (Fin volume → S)) (r_storage rhs_eo : Fin volume → S)
    (max_iterations : Int) (hmax : 0 ≤ max_iterations) (tolerance : R) :
    ((conjugate_gradient_unprec sc dot action rhs max_iterations tolerance).iterations
          ≤ max_iterations
        ∧ (conjugate_gradient_unprec sc dot action rhs max_iterations tolerance).residual
          ≤ tolerance
        ∧ ((conjugate_gradient_unprec sc dot action rhs max_iterations tolerance).residual
            < tolerance
          ↔ ∃ i : Nat, (i : Int) < max_iterations
            ∧ sc.sqrt (sc.real (dot (unprec_body sc dot action rhs i).r
                (unprec_body sc dot action rhs i).r)) < tolerance)
        ∧ ((conjugate_gradient_unprec sc dot action rhs max_iterations tolerance).residual
            = tolerance
          ↔ ¬ ∃ i : Nat, (i : Int) < max_iterations
            ∧ sc.sqrt (sc.real (dot (unprec_body sc dot action rhs i).r
                (unprec_body sc dot action rhs i).r)) < tolerance))
      ∧ ((conjugate_gradient_eoprec sc dot_odd action_eo r_storage rhs_eo max_iterations
            tolerance).iterations ≤ max_iterations
        ∧ (conjugate_gradient_eoprec sc dot_odd action_eo r_storage rhs_eo max_iterations
            tolerance).residual ≤ tolerance
        ∧ ((conjugate_gradient_eoprec sc dot_odd action_eo r_storage rhs_eo max_iterations
              tolerance).residual < tolerance
          ↔ ∃ i : Nat, (i : Int) < max_iterations
            ∧ sc.sqrt (sc.real (dot_odd
                (segment (eoprec_body sc dot_odd action_eo r_storage rhs_eo i).r (volume / 2)
                  (volume / 2) (by omega))
                (segment (eoprec_body sc dot_odd action_eo r_storage rhs_eo i).r (volume / 2)
                  (volume / 2) (by omega)))) < tolerance)
        ∧ ((conjugate_gradient_eoprec sc dot_odd action_eo r_storage rhs_eo max_iterations
              tolerance).residual = tolerance
          ↔ ¬ ∃ i : Nat, (i : Int) < max_iterations
            ∧ sc.sqrt (sc.real (dot_odd
                (segment (eoprec_body sc dot_odd action_eo r_storage rhs_eo i).r (volume / 2)
                  (volume / 2) (by omega))
                (segment (eoprec_body sc dot_odd action_eo r_storage rhs_eo i).r (volume / 2)
                  (volume / 2) (by omega)))) < tolerance)) :=
  ⟨cg_loop_report sc (unprec_step sc dot action) tolerance max_iterations hmax
      (unprec_init sc dot action rhs),
    cg_loop_report sc (eoprec_step sc dot_odd action_eo) tolerance max_iterations hmax
      (eoprec_init sc dot_odd action_eo r_storage rhs_eo)⟩

end report

section report_witness

/-- Witness of C19: `diag(1, 2) x = (3, 4)` for the unpreconditioned solver and the 4-site
example for the preconditioned one, with `max_iterations = 5` and `tolerance = 1`. -/
theorem solvers_report_bounds_witness :
    (0 : Int) ≤ 5
      ∧ (conjugate_gradient_unprec (exact_arithmetic Real.sqrt) dot_fermions diag_action rhs34
          5 1).iterations ≤ 5
      ∧ (conjugate_gradient_unprec (exact_arithmetic Real.sqrt) dot_fermions diag_action rhs34
          5 1).residual ≤ 1
      ∧ (conjugate_gradient_eoprec (exact_arithmetic Real.sqrt) dot_fermions four_site_action 0
          rhs1234 5 1).iterations ≤ 5
      ∧ (conjugate_gradient_eoprec (exact_arithmetic Real.sqrt) dot_fermions four_site_action 0
          rhs1234 5 1).residual ≤ 1 :=
  have key := solvers_report_bounds (exact_arithmetic Real.sqrt) dot_fermions diag_action rhs34
    dot_fermions four_site_action 0 rhs1234 5 (by norm_num) 1
  ⟨by norm_num, key.1.1, key.1.2.1, key.2.1, key.2.2.1⟩

end report_witness

section first_denominator

variable {R K F : Type} [Div R] [Div K] [Zero F] [Add F] [Sub F] [SMul K F] [SMul R F]

end first_denominator

section diag_matrix

end diag_matrix

section frame

variable {R K F : Type} [Div R] [Add F] [SMul R F]

/-- A property of the solution that every loop body keeps holds at loop exit. -/
theorem cg_loop_solution_invariant [LT R] [DecidableRel (fun a b : R => a < b)]
    (sc : Scalar R K) (step : CGVars R F → CGStep R K F) (tolerance : R)
    (final_iterations : Int) (final_residual : R) (P : F → Prop)
    (hstep : ∀ s : CGVars R F, P s.solution → P (step s).solution) (n : Nat) :
    ∀ (i : Int) (s : CGVars R F), P s.solution →
      P (cg_loop sc step tolerance final_iterations final_residual n i s).solution := by
  induction n with
  | zero => intro i s hs; exact hs
  | succ n ih =>
    intro i s hs
    rw [cg_loop]
    by_cases h : sc.sqrt (step s).current_residual < tolerance
    · rw [if_pos h]
      exact hstep s hs
    · rw [if_neg h]
      exact ih (i + 1) _ (hstep s hs)

end frame

section eoprec_frame

variable {R K S : Type} [Div R] [LT R] [DecidableRel (fun a b : R => a < b)] [Div K]
  [Add S] [Sub S] [SMul K S] [SMul R S] {volume : Nat}

/-- C11. The loop of `conjugate_gradient_eoprec` writes the solution only through its odd-site
view: for every even index `k` in `[0, volume/2)` the solution entry at loop exit equals
`apply_even_even_inv(rhs)[k]` as set before the loop, whatever `max_iterations` and `tolerance`
are; a write through the odd view at position `j` lands at parent index `volume/2 + j`, and
this is where each loop body puts `solution_odd + alpha * p_odd`. -/
theorem eoprec_even_entries_kept (sc : Scalar R K)
    (dot : (Fin (volume / 2) → S) → (Fin (volume / 2) → S) → K)
    (action : Action (Fin volume → S)) (r_storage rhs : Fin volume → S) (max_iterations : Int)
    (tolerance : R) :
    (∀ k : Fin volume, k.val < volume / 2 →
        (eoprec_exit sc dot action r_storage rhs max_iterations tolerance).solution k
          = action.apply_even_even_inv rhs k)
      ∧ (∀ (x : Fin volume → S) (e : Fin (volume / 2) → S) (j : Fin (volume / 2)),
        assign_segment x (volume / 2) (volume / 2) e ⟨volume / 2 + j.val, by omega⟩ = e j)
      ∧ (∀ (s : CGVars R (Fin volume → S)) (j : Fin (volume / 2)),
        (eoprec_step sc dot action s).solution ⟨volume / 2 + j.val, by omega⟩
          = s.solution ⟨volume / 2 + j.val, by omega⟩
            + (eoprec_step sc dot action s).alpha • s.p ⟨volume / 2 + j.val, by omega⟩) := by
  have hwrite : ∀ (x : Fin volume → S) (e : Fin (volume / 2) → S) (j : Fin (volume / 2)),
      assign_segment x (volume / 2) (volume / 2) e ⟨volume / 2 + j.val, by omega⟩ = e j := by
    intro x e j
    rw [assign_segment_inside x (volume / 2) (volume / 2) e ⟨volume / 2 + j.val, by omega⟩
      ⟨by simp, by simp⟩]
    congr 1
    exact Fin.ext (by simp)
  refine ⟨?_, hwrite, ?_⟩
  · intro k hk
    refine cg_loop_solution_invariant sc (eoprec_step sc dot action) tolerance max_iterations
      tolerance (fun x => x k = action.apply_even_even_inv rhs k) ?_ max_iterations.toNat 0
      (eoprec_init sc dot action r_storage rhs) rfl
    intro s hs
    show assign_segment s.solution (volume / 2) (volume / 2) _ k = _
    rw [assign_segment_outside _ _ _ _ k (by omega)]
    exact hs
  · intro s j
    show assign_segment s.solution (volume / 2) (volume / 2) _ _ = _
    rw [hwrite]
    rfl

end eoprec_frame

section frame_witness

/-- Witness of C11 on the 4-site example: after two iterations the even entries 0 and 1 of the
solution are those of `apply_even_even_inv(rhs)`, namely 1 and 2. -/
theorem eoprec_even_entries_kept_witness :
    (eoprec_exit (exact_arithmetic Real.sqrt) dot_fermions four_site_action 0 rhs1234
        5 1).solution 0 = four_site_action.apply_even_even_inv rhs1234 0
      ∧ (eoprec_exit (exact_arithmetic Real.sqrt) dot_fermions four_site_action 0 rhs1234
        5 1).solution 1 = four_site_action.apply_even_even_inv rhs1234 1
      ∧ four_site_action.apply_even_even_inv rhs1234 0 = 1
      ∧ four_site_action.apply_even_even_inv rhs1234 1 = 2
      ∧ (eoprec_exit (exact_arithmetic Real.sqrt) dot_fermions four_site_action 0 rhs1234
        5 1).iterations = 2 :=
  ⟨(eoprec_even_entries_kept (exact_arithmetic Real.sqrt) dot_fermions four_site_action 0
      rhs1234 5 1).1 0 (by decide),
    (eoprec_even_entries_kept (exact_arithmetic Real.sqrt) dot_fermions four_site_action 0
      rhs1234 5 1).1 1 (by decide),
    by simp [four_site_action, rhs1234], by simp [four_site_action, rhs1234],
    by rw [four_site_exit]⟩

end frame_witness

section view_cover

theorem segment_covers_iff (offset size k : Nat) :
    segment_covers offset size k = true ↔ offset ≤ k ∧ k < offset + size := by
  simp [segment_covers]

/-- The indices that `assign_segment` writes are those that the view covers. -/
theorem assign_segment_covers {S : Type} {v : Nat} (x : Fin v → S) (offset size : Nat)
    (e : Fin size → S) (k : Fin v) :
    (segment_covers offset size k.val = false → assign_segment x offset size e k = x k)
      ∧ (∀ h : segment_covers offset size k.val = true,
        assign_segment x offset size e k
          = e ⟨k.val - offset, by
              have h' := (segment_covers_iff offset size k.val).mp h
              omega⟩) := by
  constructor
  · intro h
    refine assign_segment_outside x offset size e k (fun hc => ?_)
    rw [(segment_covers_iff offset size k.val).mpr hc] at h
    exact Bool.noConfusion h
  · intro h
    exact assign_segment_inside x offset size e k ((segment_covers_iff offset size k.val).mp h)

/-- Counterexample to C12 as stated: for the volume 3 the odd view `segment(1, 1)` does not
cover the index 2 of `[3/2, 3)`, and no view covers it. -/
theorem views_odd_volume :
    ¬ (∀ k : Nat, k < 3 → (segment_covers (3 / 2) (3 / 2) k = true ↔ 3 / 2 ≤ k))
      ∧ ¬ (∀ k : Nat, k < 3 →
        segment_covers 0 (3 / 2) k = true ∨ segment_covers (3 / 2) (3 / 2) k = true) := by
  decide

/-- C12, as amended.  For every lattice volume `v` the even view `segment(0, v/2)` covers
exactly `[0, v/2)` and the odd views `segment(v/2, v/2)` cover exactly `[v/2, v/2 + v/2)`
(integer division); no index is covered by both; when `v` is even the two together cover every
index of `[0, v)` exactly once, and when `v` is odd the last index `v - 1` is covered by
neither. -/
theorem views_cover (v k : Nat) :
    (segment_covers 0 (v / 2) k = true ↔ k < v / 2)
      ∧ (segment_covers (v / 2) (v / 2) k = true ↔ v / 2 ≤ k ∧ k < v / 2 + v / 2)
      ∧ ¬ (segment_covers 0 (v / 2) k = true ∧ segment_covers (v / 2) (v / 2) k = true)
      ∧ (v % 2 = 0 → k < v →
        segment_covers 0 (v / 2) k = true ∨ segment_covers (v / 2) (v / 2) k = true)
      ∧ (v % 2 = 1 →
        segment_covers 0 (v / 2) (v - 1) = false
          ∧ segment_covers (v / 2) (v / 2) (v - 1) = false) := by
  refine ⟨?_, ?_, ?_, ?_, ?_⟩
  · rw [segment_covers_iff]
    omega
  · rw [segment_covers_iff]
  · rw [segment_covers_iff, segment_covers_iff]
    omega
  · intro hv hk
    rw [segment_covers_iff, segment_covers_iff]
    omega
  · intro hv
    constructor
    · rw [← Bool.not_eq_true, segment_covers_iff]
      omega
    · rw [← Bool.not_eq_true, segment_covers_iff]
      omega

/-- Witness of C12 as amended: the volumes 4 and 3. -/
theorem views_cover_witness :
    (segment_covers 0 (4 / 2) 1 = true ∨ segment_covers (4 / 2) (4 / 2) 1 = true)
      ∧ (segment_covers 0 (4 / 2) 3 = true ∨ segment_covers (4 / 2) (4 / 2) 3 = true)
      ∧ segment_covers 0 (3 / 2) (3 - 1) = false
      ∧ segment_covers (3 / 2) (3 / 2) (3 - 1) = false :=
  ⟨(views_cover 4 1).2.2.2.1 (by decide) (by decide),
    (views_cover 4 3).2.2.2.1 (by decide) (by decide),
    ((views_cover 3 2).2.2.2.2 (by decide)).1, ((views_cover 3 2).2.2.2.2 (by decide)).2⟩

end view_cover

section storage

variable {T : Type}

theorem resize_length (data : List T) (n : Nat) (init : T) : (resize data n init).length = n := by
  simp [resize]
  omega

/-- A loop of writes `d[f i] = g i` for `i = 0, ..., n - 1`, skipping the `i` without a value,
keeps the length of `d`, and when `f` is injective on `[0, n)` and stays inside `d` the entry
`f i` ends as the value of `i`. -/
theorem foldl_set_spec (f : Nat → Nat) (g : Nat → Option T) (n : Nat) (d : List T)
    (hinj : ∀ i j, i < n → j < n → f i = f j → i = j) (hlen : ∀ i, i < n → f i < d.length) :
    ((List.range n).foldl
        (fun d i => match g i with
          | some val => d.set (f i) val
          | none => d) d).length = d.length
      ∧ ∀ i val, i < n → g i = some val →
        ((List.range n).foldl
          (fun d i => match g i with
            | some val => d.set (f i) val
            | none => d) d)[f i]? = some val := by
  induction n with
  | zero => exact ⟨rfl, fun i val hi => absurd hi (Nat.not_lt_zero i)⟩
  | succ n ih =>
    obtain ⟨ihlen, ihval⟩ := ih (fun i j hi hj => hinj i j (by omega) (by omega))
      (fun i hi => hlen i (by omega))
    rw [List.range_succ, List.foldl_append]
    simp only [List.foldl_cons, List.foldl_nil]
    cases hg : g n with
    | none =>
      refine ⟨ihlen, fun i val hi hgi => ?_⟩
      rcases Nat.lt_or_eq_of_le (Nat.lt_succ_iff.mp hi) with hlt | rfl
      · exact ihval i val hlt hgi
      · rw [hg] at hgi
        exact Option.noConfusion hgi
    | some w =>
      refine ⟨by simp [ihlen], fun i val hi hgi => ?_⟩
      rcases Nat.lt_or_eq_of_le (Nat.lt_succ_iff.mp hi) with hlt | rfl
      · have hne : f n ≠ f i := fun h => by
          have := hinj n i (by omega) (by omega) h
          omega
        simp only [List.getElem?_set_ne hne]
        exact ihval i val hlt hgi
      · rw [hg] at hgi
        cases hgi
        exact List.getElem?_set_self (by rw [ihlen]; exact hlen i (by omega))

end storage

section lattice_facts

variable {T U : Type}

/-- The loop of the constructors from an expression fills a storage of length `size` with the
converted elements of the expression. -/
theorem materialise_spec (convert : U → T) (size : Nat) (at_index : Nat → U) (data : List T)
    (hlen : data.length = size) :
    (materialise convert size at_index data).length = size
      ∧ ∀ i, i < size →
        (materialise convert size at_index data)[i]? = some (convert (at_index i)) := by
  obtain ⟨h1, h2⟩ := foldl_set_spec (fun i => i) (fun i => some (convert (at_index i))) size
    data (fun i j _ _ h => h) (fun i hi => by rw [hlen]; exact hi)
  exact ⟨h1.trans hlen, fun i hi => h2 i _ hi rfl⟩

/-- The loop of the copy-assignment, when the volumes agree and the objects differ. -/
theorem assign_loop_spec (self lattice : Lattice T) (hself : self.data.length = self.volume)
    (hlat : lattice.data.length = self.volume)
    (hinj : ∀ i j, i < self.volume → j < self.volume →
      self.layout.get_array_index (lattice.layout.get_site_index i)
        = self.layout.get_array_index (lattice.layout.get_site_index j) → i = j)
    (hrange : ∀ i, i < self.volume →
      self.layout.get_array_index (lattice.layout.get_site_index i) < self.volume) :
    ((List.range self.volume).foldl
        (fun this i =>
          match lattice.data[i]? with
          | some val => this.set_site (lattice.layout.get_site_index i) val
          | none => this) self).layout = self.layout
      ∧ ((List.range self.volume).foldl
        (fun this i =>
          match lattice.data[i]? with
          | some val => this.set_site (lattice.layout.get_site_index i) val
          | none => this) self).data.length = self.data.length
      ∧ ∀ i, i < self.volume →
        ((List.range self.volume).foldl
          (fun this i =>
            match lattice.data[i]? with
            | some val => this.set_site (lattice.layout.get_site_index i) val
            | none => this) self).data[self.layout.get_array_index
              (lattice.layout.get_site_index i)]? = lattice.data[i]? := by
  have hfold : ∀ (l : List Nat) (this : Lattice T),
      l.foldl
        (fun this i =>
          match lattice.data[i]? with
          | some val => this.set_site (lattice.layout.get_site_index i) val
          | none => this) this
      = ⟨l.foldl
          (fun d i =>
            match lattice.data[i]? with
            | some val =>
              d.set (this.layout.get_array_index (lattice.layout.get_site_index i)) val
            | none => d) this.data, this.layout⟩ := by
    intro l
    induction l with
    | nil => intro this; rfl
    | cons a l ih =>
      intro this
      rw [List.foldl_cons, List.foldl_cons, ih]
      cases lattice.data[a]? with
      | none => rfl
      | some val => rfl
  rw [hfold]
  obtain ⟨h1, h2⟩ := foldl_set_spec
    (fun i => self.layout.get_array_index (lattice.layout.get_site_index i))
    (fun i => lattice.data[i]?) self.volume self.data hinj
    (fun i hi => by rw [hself]; exact hrange i hi)
  refine ⟨rfl, h1, fun i hi => ?_⟩
  have hi' : i < lattice.data.length := by rw [hlat]; exact hi
  have hsome : lattice.data[i]? = some lattice.data[i] := List.getElem?_eq_getElem hi'
  rw [hsome]
  exact h2 i _ hi hsome

end lattice_facts

section lattice_claims

variable {T U : Type}

/-- C13, as amended.  Lattice copy-assignment re-indexes by site identity: for a destination
and a source Lattice of equal volume that both satisfy the Lattice invariant
`length(data) == layout.volume()`, whose Layouts have `get_array_index` and `get_site_index` as
mutually inverse bijections on `[0, volume)`, the assignment `dst = src` passes its `assert`,
and afterwards every site index `s` in `[0, volume)` satisfies `dst(s) == src(s)`, that is
`dst.data[dstLayout.get_array_index(s)] == src.data[srcLayout.get_array_index(s)]`, whether or
not the two Layouts order the storage in the same way. -/
theorem assign_site_identity (dst src : Lattice T) (same_object : Bool)
    (hsame : same_object = true → src = dst) (hvol : src.volume = dst.volume)
    (hdst_len : dst.data.length = dst.volume) (hsrc_len : src.data.length = src.volume)
    (hdst : dst.layout.bijective) (hsrc : src.layout.bijective) (s : Nat)
    (hs : s < dst.volume) :
    (dst.assign src same_object).assertion_failed = false
      ∧ (dst.assign src same_object).lattice.at_site s = src.at_site s
      ∧ (dst.assign src same_object).lattice.data[dst.layout.get_array_index s]?
        = src.data[src.layout.get_array_index s]?
      ∧ (src.at_site s).isSome = true := by
  have hs' : s < src.layout.volume := by
    show s < src.volume
    rw [hvol]
    exact hs
  have hsome : (src.at_site s).isSome = true := by
    rw [Lattice.at_site, List.getElem?_eq_getElem (by
      rw [hsrc_len]
      exact (hsrc.1 s hs').1)]
    rfl
  unfold Lattice.assign
  rw [if_neg (fun h => h hvol)]
  cases hso : same_object with
  | true =>
    have hsd := hsame hso
    subst hsd
    exact ⟨rfl, rfl, rfl, hsome⟩
  | false =>
    have hloop := assign_loop_spec dst src hdst_len (hsrc_len.trans hvol)
      (fun i j hi hj h => by
        have hi' : i < src.layout.volume := by show i < src.volume; rw [hvol]; exact hi
        have hj' : j < src.layout.volume := by show j < src.volume; rw [hvol]; exact hj
        have hgi : src.layout.get_site_index i < dst.layout.volume := by
          show _ < dst.volume
          rw [← hvol]
          exact (hsrc.2 i hi').1
        have hgj : src.layout.get_site_index j < dst.layout.volume := by
          show _ < dst.volume
          rw [← hvol]
          exact (hsrc.2 j hj').1
        have h1 : src.layout.get_site_index i = src.layout.get_site_index j := by
          rw [← (hdst.1 _ hgi).2, ← (hdst.1 _ hgj).2, h]
        rw [← (hsrc.2 i hi').2, ← (hsrc.2 j hj').2, h1])
      (fun i hi => by
        have hi' : i < src.layout.volume := by show i < src.volume; rw [hvol]; exact hi
        have hgi : src.layout.get_site_index i < dst.layout.volume := by
          show _ < dst.volume
          rw [← hvol]
          exact (hsrc.2 i hi').1
        exact (hdst.1 _ hgi).1)
    have hi0 : src.layout.get_array_index s < dst.volume := by
      rw [← hvol]
      exact (hsrc.1 s hs').1
    have hkey := hloop.2.2 (src.layout.get_array_index s) hi0
    rw [(hsrc.1 s hs').2] at hkey
    rw [if_neg Bool.false_ne_true]
    refine ⟨rfl, ?_, hkey, hsome⟩
    rw [Lattice.at_site, Lattice.at_site, hloop.1]
    exact hkey

/-- C14. With its `assert` compiled in, Lattice copy-assignment fails with the assertion if
and only if the volume of the source differs from the volume of the destination, and when it
fails the destination is as it was: no element has been modified. -/
theorem assign_assertion (dst src : Lattice T) (same_object : Bool) :
    ((dst.assign src same_object).assertion_failed = true ↔ src.volume ≠ dst.volume)
      ∧ ((dst.assign src same_object).assertion_failed = true →
        (dst.assign src same_object).lattice = dst) := by
  unfold Lattice.assign
  by_cases h : src.volume ≠ dst.volume
  · rw [if_pos h]
    exact ⟨⟨fun _ => h, fun _ => rfl⟩, fun _ => rfl⟩
  · rw [if_neg h]
    cases same_object with
    | true => exact ⟨⟨fun hf => absurd hf (by simp), fun hv => absurd hv h⟩,
        fun hf => absurd hf (by simp)⟩
    | false => exact ⟨⟨fun hf => absurd hf (by simp), fun hv => absurd hv h⟩,
        fun hf => absurd hf (by simp)⟩

/-- C15, as amended.  The invariant `length(data) == layout.volume()` of a Lattice is
established by the constructor from a Layout, by the constructor from a Layout and a fill
value, and by the constructor from a lazy expression whose `size()` is the volume of its
`layout()`; copy-assignment preserves it, whether or not its `assert` fails. -/
theorem lattice_length_invariant :
    (∀ (layout : Layout) (init : T),
        (Lattice.from_layout layout init).data.length
          = (Lattice.from_layout layout init).layout.volume)
      ∧ (∀ (layout : Layout) (val : T),
        (Lattice.from_value layout val).data.length
          = (Lattice.from_value layout val).layout.volume)
      ∧ (∀ (convert : U → T) (init : T) (expr : ArrayExpr U),
        expr.size = expr.layout.volume →
        (Lattice.from_expr convert init expr).data.length
          = (Lattice.from_expr convert init expr).layout.volume)
      ∧ (∀ (dst src : Lattice T) (same_object : Bool),
        dst.data.length = dst.layout.volume →
        (dst.assign src same_object).lattice.data.length
          = (dst.assign src same_object).lattice.layout.volume) := by
  refine ⟨fun layout init => resize_length _ _ _, fun layout val => by simp [Lattice.from_value],
    fun convert init expr hsize => ?_, fun dst src same_object hinv => ?_⟩
  · show (materialise convert expr.size expr.at_index (resize [] expr.size init)).length
      = expr.layout.volume
    rw [(materialise_spec convert expr.size expr.at_index _ (resize_length _ _ _)).1, hsize]
  · unfold Lattice.assign
    by_cases h : src.volume ≠ dst.volume
    · rw [if_pos h]
      exact hinv
    · rw [if_neg h]
      cases same_object with
      | true => exact hinv
      | false =>
        rw [if_neg Bool.false_ne_true]
        have hgen : ∀ (l : List Nat) (this : Lattice T),
            this.data.length = this.layout.volume →
            (l.foldl
              (fun this i =>
                match src.data[i]? with
                | some val => this.set_site (src.layout.get_site_index i) val
                | none => this) this).data.length
            = (l.foldl
              (fun this i =>
                match src.data[i]? with
                | some val => this.set_site (src.layout.get_site_index i) val
                | none => this) this).layout.volume := by
          intro l
          induction l with
          | nil => intro this hthis; exact hthis
          | cons a l ih =>
            intro this hthis
            rw [List.foldl_cons]
            apply ih
            cases src.data[a]? with
            | none => exact hthis
            | some val =>
              show (this.data.set _ val).length = this.layout.volume
              rw [List.length_set]
              exact hthis
        exact hgen _ dst hinv

/-- C16. Constructing a Lattice or an Array from a lazy expression `e` materializes it: the
result has length `e.size()`, its element `i` equals `e[i]` converted to the element type for
every `i` in `[0, e.size())`, and for the Lattice the resulting layout is `e.layout()`. -/
theorem from_expr_materialises (convert : U → T) (init : T) (expr : ArrayExpr U) :
    ((Lattice.from_expr convert init expr).data.length = expr.size
        ∧ (∀ i, i < expr.size →
          (Lattice.from_expr convert init expr).data[i]? = some (convert (expr.at_index i)))
        ∧ (Lattice.from_expr convert init expr).layout = expr.layout)
      ∧ ((Array_from_expr convert init expr.size expr.at_index).length = expr.size
        ∧ ∀ i, i < expr.size →
          (Array_from_expr convert init expr.size expr.at_index)[i]?
            = some (convert (expr.at_index i))) := by
  have h := materialise_spec convert expr.size expr.at_index (resize [] expr.size init)
    (resize_length _ _ _)
  exact ⟨⟨h.1, h.2, rfl⟩, h.1, h.2⟩

end lattice_claims

section lattice_witnesses

/-- Counterexample to C13 as stated: the destination is the Lattice constructed from an
expression of size 1 whose Layout has volume 2, the source holds `[10, 20]` on the same Layout.
The volumes are equal and the Layout is bijective, so the `assert` passes; the write for the
site 1 addresses `data_[1]`, outside the one element the destination holds, and after the
assignment the destination has no element at the site 1 while `src(1)` is 20. -/
theorem assign_short_destination :
    (⟨[10, 20], short_layout⟩ : Lattice Nat).volume
        = (Lattice.from_expr id 0 short_expr).volume
      ∧ (Lattice.from_expr id 0 short_expr).layout.bijective
      ∧ (⟨[10, 20], short_layout⟩ : Lattice Nat).layout.bijective
      ∧ (Lattice.from_expr id 0 short_expr).data.length = 1
      ∧ ((Lattice.from_expr id 0 short_expr).assign ⟨[10, 20], short_layout⟩
          false).assertion_failed = false
      ∧ ((Lattice.from_expr id 0 short_expr).assign ⟨[10, 20], short_layout⟩
          false).lattice.at_site 1
        ≠ (⟨[10, 20], short_layout⟩ : Lattice Nat).at_site 1
      ∧ (⟨[10, 20], short_layout⟩ : Lattice Nat).at_site 1 = some 20
      ∧ ((Lattice.from_expr id 0 short_expr).assign ⟨[10, 20], short_layout⟩
          false).lattice.data = [10] := by
  decide

/-- Witness of C13 as amended: the source stores the sites in rotated order,
`src.data = [10, 20, 30]` with `src(0) = 20`, `src(1) = 30`, `src(2) = 10`; the destination
stores the site `s` at the index `s` and ends as `[20, 30, 10]`. -/
theorem assign_site_identity_witness :
    (⟨[10, 20, 30], rotated_layout⟩ : Lattice Nat).volume
        = (⟨[0, 0, 0], straight_layout⟩ : Lattice Nat).volume
      ∧ straight_layout.bijective ∧ rotated_layout.bijective
      ∧ ((⟨[0, 0, 0], straight_layout⟩ : Lattice Nat).assign ⟨[10, 20, 30], rotated_layout⟩
          false).lattice.at_site 0
        = (⟨[10, 20, 30], rotated_layout⟩ : Lattice Nat).at_site 0
      ∧ (⟨[10, 20, 30], rotated_layout⟩ : Lattice Nat).at_site 0 = some 20
      ∧ ((⟨[0, 0, 0], straight_layout⟩ : Lattice Nat).assign ⟨[10, 20, 30], rotated_layout⟩
          false).lattice.data = [20, 30, 10] :=
  have hd : straight_layout.bijective := by decide
  have hs : rotated_layout.bijective := by decide
  ⟨rfl, hd, hs,
    (assign_site_identity (⟨[0, 0, 0], straight_layout⟩ : Lattice Nat)
      ⟨[10, 20, 30], rotated_layout⟩ false (fun h => absurd h Bool.false_ne_true) rfl rfl rfl
      hd hs 0 (by decide)).2.1,
    by decide, by decide⟩

/-- Witness of C14: a source of volume 2 assigned to a destination of volume 3. -/
theorem assign_assertion_witness :
    (⟨[10, 20], short_layout⟩ : Lattice Nat).volume
        ≠ (⟨[1, 2, 3], straight_layout⟩ : Lattice Nat).volume
      ∧ ((⟨[1, 2, 3], straight_layout⟩ : Lattice Nat).assign ⟨[10, 20], short_layout⟩
          false).assertion_failed = true
      ∧ ((⟨[1, 2, 3], straight_layout⟩ : Lattice Nat).assign ⟨[10, 20], short_layout⟩
          false).lattice = ⟨[1, 2, 3], straight_layout⟩ :=
  have hv : (⟨[10, 20], short_layout⟩ : Lattice Nat).volume
      ≠ (⟨[1, 2, 3], straight_layout⟩ : Lattice Nat).volume := by decide
  have hf := (assign_assertion (⟨[1, 2, 3], straight_layout⟩ : Lattice Nat)
    ⟨[10, 20], short_layout⟩ false).1.mpr hv
  ⟨hv, hf, (assign_assertion (⟨[1, 2, 3], straight_layout⟩ : Lattice Nat)
    ⟨[10, 20], short_layout⟩ false).2 hf⟩

/-- Counterexample to C15 as stated: the Lattice constructed from an expression of size 1
whose layout has volume 2 holds 1 element on a Layout of volume 2. -/
theorem from_expr_breaks_invariant :
    (Lattice.from_expr id 0 short_expr).data.length
      ≠ (Lattice.from_expr id 0 short_expr).layout.volume := by
  decide

/-- Witness of C15 as amended: an expression of size 3 on a Layout of volume 3, and a
copy-assignment into a Lattice that holds 3 elements on a Layout of volume 3. -/
theorem lattice_length_invariant_witness :
    sample_expr.size = sample_expr.layout.volume
      ∧ (Lattice.from_expr id 0 sample_expr).data.length
        = (Lattice.from_expr id 0 sample_expr).layout.volume
      ∧ ((⟨[0, 0, 0], straight_layout⟩ : Lattice Nat).assign ⟨[10, 20, 30], rotated_layout⟩
          false).lattice.data.length
        = ((⟨[0, 0, 0], straight_layout⟩ : Lattice Nat).assign ⟨[10, 20, 30], rotated_layout⟩
          false).lattice.layout.volume :=
  ⟨rfl, (@lattice_length_invariant Nat Nat).2.2.1 id 0 sample_expr rfl,
    (@lattice_length_invariant Nat Nat).2.2.2 ⟨[0, 0, 0], straight_layout⟩
      ⟨[10, 20, 30], rotated_layout⟩ false rfl⟩

/-- Witness of C16: the expression with the elements 5, 6, 7. -/
theorem from_expr_materialises_witness :
    (Lattice.from_expr id 0 sample_expr).data = [5, 6, 7]
      ∧ (Lattice.from_expr id 0 sample_expr).data[1]? = some (id (sample_expr.at_index 1))
      ∧ (Array_from_expr id 0 sample_expr.size sample_expr.at_index)[2]?
        = some (id (sample_expr.at_index 2)) :=
  ⟨by decide, (from_expr_materialises id 0 sample_expr).1.2.1 1 (by decide),
    (from_expr_materialises id 0 sample_expr).2.2 2 (by decide)⟩

end lattice_witnesses

section wilson_facts

theorem emod_sub_left (a b m : Int) : (a % m - b) % m = (a - b) % m := by
  rw [Int.sub_emod, Int.emod_emod, ← Int.sub_emod]

theorem emod_add_left (a b m : Int) : (a % m + b) % m = (a + b) % m :=
  Int.emod_add_emod a m b

theorem emod_add_sub (a m : Int) : ((a + 1) % m - 1) % m = a % m := by
  rw [emod_sub_left]; congr 1; ring

theorem emod_sub_add (a m : Int) : ((a - 1) % m + 1) % m = a % m := by
  rw [emod_add_left]; congr 1; ring

end wilson_facts
section wilson_staples

/-- One pass of the loop of lines 73-123, link by link: the first four indices and the last
are those of the links of the two staples, and the fifth, stored by lines 113-117, is the index
of the link `(x - nu, direction nu)`, because line 113 leaves the direction `nu` in place. -/
theorem wilson_staple_links (layout : Layout) (link_coords : Nat → Nat) (nu : Nat)
    (hmu : link_coords (layout.num_dims - 1) < layout.num_dims - 1)
    (hnu : nu < layout.num_dims - 1) (hne : nu ≠ link_coords (layout.num_dims - 1)) :
    wilson_staple layout link_coords nu
      = ⟨link_index layout
            (shifted (fun k => (link_coords k : Int)) (link_coords (layout.num_dims - 1)) 1) nu,
         link_index layout (shifted (fun k => (link_coords k : Int)) nu 1)
            (link_coords (layout.num_dims - 1)),
         link_index layout (fun k => (link_coords k : Int)) nu,
         link_index layout
            (shifted (shifted (fun k => (link_coords k : Int))
              (link_coords (layout.num_dims - 1)) 1) nu (-1)) nu,
         link_index layout (shifted (fun k => (link_coords k : Int)) nu (-1)) nu,
         link_index layout (shifted (fun k => (link_coords k : Int)) nu (-1)) nu⟩ := by
  generalize hD : layout.num_dims - 1 = D at *
  generalize hm : link_coords D = mu at *
  have h1 : D < layout.num_dims := by omega
  have h2 : mu < layout.num_dims := by omega
  have h3 : nu < layout.num_dims := by omega
  have h4 : mu ≠ D := by omega
  have h5 : nu ≠ D := by omega
  have h6 : D ≠ mu := by omega
  have h7 : D ≠ nu := by omega
  have h8 : mu ≠ nu := fun h => hne h.symm
  simp only [wilson_staple, link_index, hD, hm]
  refine congr (congr (congr (congr (congr (congrArg Staple.mk ?_) ?_) ?_) ?_) ?_) ?_ <;>
    refine congrArg layout.get_array_index_coords (funext fun k => ?_) <;>
    by_cases k1 : k = D <;> by_cases k2 : k = mu <;> by_cases k3 : k = nu <;>
    by_cases k4 : k < layout.num_dims <;>
    simp [sanitise_site_coords, Function.update_apply, shifted, *, emod_sub_left, emod_add_left,
      emod_add_sub, emod_sub_add, Int.emod_emod, ← sub_eq_add_neg]

end wilson_staples
section wilson_rows

theorem store_staple_length (row : List Nat) (i : Nat) (staple : Staple) :
    (store_staple row i staple).length = row.length := by
  simp [store_staple]

/-- The six writes of one pass of the loop land in the slots `6 * i` to `6 * i + 5`. -/
theorem store_staple_inside (row : List Nat) (i : Nat) (staple : Staple)
    (h : 6 * i + 5 < row.length) :
    (store_staple row i staple)[6 * i]? = some staple.upper0
      ∧ (store_staple row i staple)[6 * i + 1]? = some staple.upper1
      ∧ (store_staple row i staple)[6 * i + 2]? = some staple.upper2
      ∧ (store_staple row i staple)[6 * i + 3]? = some staple.lower0
      ∧ (store_staple row i staple)[6 * i + 4]? = some staple.lower1
      ∧ (store_staple row i staple)[6 * i + 5]? = some staple.lower2 := by
  have h0 : 6 * i < row.length := by omega
  have h1 : 6 * i + 1 < row.length := by omega
  have h2 : 6 * i + 2 < row.length := by omega
  have h3 : 6 * i + 3 < row.length := by omega
  have h4 : 6 * i + 4 < row.length := by omega
  simp [store_staple, List.getElem?_set, h, h0, h1, h2, h3, h4]

/-- The writes of one pass of the loop leave the other slots alone. -/
theorem store_staple_outside (row : List Nat) (i : Nat) (staple : Staple) (j : Nat)
    (h : j < 6 * i ∨ 6 * i + 6 ≤ j) :
    (store_staple row i staple)[j]? = row[j]? := by
  have h0 : 6 * i ≠ j := by omega
  have h1 : 6 * i + 1 ≠ j := by omega
  have h2 : 6 * i + 2 ≠ j := by omega
  have h3 : 6 * i + 3 ≠ j := by omega
  have h4 : 6 * i + 4 ≠ j := by omega
  have h5 : 6 * i + 5 ≠ j := by omega
  simp [store_staple, List.getElem?_set, h0, h1, h2, h3, h4, h5]

/-- The loop of lines 73-123 after `n` passes: the passes before `n` have stored their six
indices, and the length of the row is unchanged. -/
theorem staple_loop_spec (staples : Nat → Staple) (row0 : List Nat) (n : Nat)
    (hn : 6 * n ≤ row0.length) :
    ((List.range n).foldl (fun row i => store_staple row i (staples i)) row0).length
        = row0.length
      ∧ ∀ i, i < n →
        ((List.range n).foldl (fun row i => store_staple row i (staples i)) row0)[6 * i]?
            = some (staples i).upper0
          ∧ ((List.range n).foldl (fun row i => store_staple row i (staples i)) row0)[6 * i + 1]?
            = some (staples i).upper1
          ∧ ((List.range n).foldl (fun row i => store_staple row i (staples i)) row0)[6 * i + 2]?
            = some (staples i).upper2
          ∧ ((List.range n).foldl (fun row i => store_staple row i (staples i)) row0)[6 * i + 3]?
            = some (staples i).lower0
          ∧ ((List.range n).foldl (fun row i => store_staple row i (staples i)) row0)[6 * i + 4]?
            = some (staples i).lower1
          ∧ ((List.range n).foldl (fun row i => store_staple row i (staples i)) row0)[6 * i + 5]?
            = some (staples i).lower2 := by
  induction n with
  | zero => exact ⟨rfl, fun i hi => absurd hi (Nat.not_lt_zero i)⟩
  | succ n ih =>
    obtain ⟨ihlen, ihval⟩ := ih (by omega)
    rw [List.range_succ, List.foldl_append]
    simp only [List.foldl_cons, List.foldl_nil]
    refine ⟨by rw [store_staple_length, ihlen], fun i hi => ?_⟩
    by_cases hin : i = n
    · subst hin
      exact store_staple_inside _ i _ (by rw [ihlen]; omega)
    · have hlt : i < n := by omega
      rw [store_staple_outside _ n _ (6 * i) (by omega),
        store_staple_outside _ n _ (6 * i + 1) (by omega),
        store_staple_outside _ n _ (6 * i + 2) (by omega),
        store_staple_outside _ n _ (6 * i + 3) (by omega),
        store_staple_outside _ n _ (6 * i + 4) (by omega),
        store_staple_outside _ n _ (6 * i + 5) (by omega)]
      exact ihval i hlt

/-- The directions of `planes` are the directions in `[0, num_dims)` other than that of the
link. -/
theorem wilson_planes_mem (num_dims : Nat) (link_coords : Nat → Nat) (d : Nat) :
    d ∈ wilson_planes num_dims link_coords ↔ d < num_dims ∧ d ≠ link_coords num_dims := by
  simp only [wilson_planes, List.mem_filter, List.mem_range, bne_iff_ne, ne_eq]
  exact ⟨fun h => ⟨h.1, fun e => h.2 e.symm⟩, fun h => ⟨h.1, fun e => h.2 e.symm⟩⟩

/-- The directions of `planes` are stored in increasing order. -/
theorem wilson_planes_sorted (num_dims : Nat) (link_coords : Nat → Nat) :
    (wilson_planes num_dims link_coords).Pairwise (fun a b => a < b) :=
  List.Pairwise.filter _ (List.pairwise_lt_range num_dims)

/-- The loop of lines 65-69 fills all the `num_dims - 1` entries of `planes` when the direction
of the link is one of the `num_dims` directions. -/
theorem wilson_planes_length (num_dims : Nat) (link_coords : Nat → Nat)
    (hmu : link_coords num_dims < num_dims) :
    (wilson_planes num_dims link_coords).length = num_dims - 1 := by
  have hfil : wilson_planes num_dims link_coords
      = (List.range num_dims).filter (fun i => i != link_coords num_dims) := by
    unfold wilson_planes
    refine List.filter_congr fun i _ => ?_
    by_cases h : link_coords num_dims = i
    · subst h; rfl
    · have h' : i ≠ link_coords num_dims := fun e => h e.symm
      rw [bne_iff_ne.mpr h, bne_iff_ne.mpr h']
  rw [hfil, ← List.Nodup.erase_eq_filter (List.nodup_range num_dims),
    List.length_erase_of_mem (List.mem_range.mpr hmu), List.length_range]

end wilson_rows
section wilson_table

/-- The row of a link in the table `links_`. -/
theorem wilson_links_row (layout : Layout) (site_index : Nat)
    (hsite : site_index < layout.local_size) :
    (wilson_links layout)[site_index]? = some (wilson_row layout site_index) := by
  simp [wilson_links, List.getElem?_map, List.getElem?_range hsite]

/-- The row `links_[site_index]` after the constructor: for the pass `i` of the loop of lines
73-123 the plane direction `planes[i]` is a direction other than that of the link, and the
slots `6 * i` to `6 * i + 5` hold the six indices of that pass. -/
theorem wilson_row_entries (layout : Layout) (site_index i : Nat)
    (hmu : layout.compute_site_coords site_index (layout.num_dims - 1) < layout.num_dims - 1)
    (hi : i < layout.num_dims - 1 - 1) :
    ((wilson_planes (layout.num_dims - 1) (layout.compute_site_coords site_index))[i]?
          = some ((wilson_planes (layout.num_dims - 1)
              (layout.compute_site_coords site_index)).getD i 0)
        ∧ (wilson_planes (layout.num_dims - 1) (layout.compute_site_coords site_index)).getD i 0
          < layout.num_dims - 1
        ∧ (wilson_planes (layout.num_dims - 1) (layout.compute_site_coords site_index)).getD i 0
          ≠ layout.compute_site_coords site_index (layout.num_dims - 1))
      ∧ (wilson_row layout site_index).length = 6 * (layout.num_dims - 1 - 1)
      ∧ (wilson_row layout site_index)[6 * i]?
          = some (wilson_staple layout (layout.compute_site_coords site_index)
              ((wilson_planes (layout.num_dims - 1)
                (layout.compute_site_coords site_index)).getD i 0)).upper0
      ∧ (wilson_row layout site_index)[6 * i + 1]?
          = some (wilson_staple layout (layout.compute_site_coords site_index)
              ((wilson_planes (layout.num_dims - 1)
                (layout.compute_site_coords site_index)).getD i 0)).upper1
      ∧ (wilson_row layout site_index)[6 * i + 2]?
          = some (wilson_staple layout (layout.compute_site_coords site_index)
              ((wilson_planes (layout.num_dims - 1)
                (layout.compute_site_coords site_index)).getD i 0)).upper2
      ∧ (wilson_row layout site_index)[6 * i + 3]?
          = some (wilson_staple layout (layout.compute_site_coords site_index)
              ((wilson_planes (layout.num_dims - 1)
                (layout.compute_site_coords site_index)).getD i 0)).lower0
      ∧ (wilson_row layout site_index)[6 * i + 4]?
          = some (wilson_staple layout (layout.compute_site_coords site_index)
              ((wilson_planes (layout.num_dims - 1)
                (layout.compute_site_coords site_index)).getD i 0)).lower1
      ∧ (wilson_row layout site_index)[6 * i + 5]?
          = some (wilson_staple layout (layout.compute_site_coords site_index)
              ((wilson_planes (layout.num_dims - 1)
                (layout.compute_site_coords site_index)).getD i 0)).lower2 := by
  have hlen := wilson_planes_length (layout.num_dims - 1)
    (layout.compute_site_coords site_index) hmu
  have hi' : i < (wilson_planes (layout.num_dims - 1)
      (layout.compute_site_coords site_index)).length := by rw [hlen]; exact hi
  have hget : (wilson_planes (layout.num_dims - 1) (layout.compute_site_coords site_index))[i]?
      = some ((wilson_planes (layout.num_dims - 1)
          (layout.compute_site_coords site_index)).getD i 0) := by
    rw [List.getD_eq_getElem?_getD, List.getElem?_eq_getElem hi']
    rfl
  have hmem := (wilson_planes_mem (layout.num_dims - 1)
    (layout.compute_site_coords site_index) _).mp (List.mem_iff_getElem?.mpr ⟨i, hget⟩)
  have hloop := staple_loop_spec
    (fun i => wilson_staple layout (layout.compute_site_coords site_index)
      ((wilson_planes (layout.num_dims - 1) (layout.compute_site_coords site_index)).getD i 0))
    (resize [] (6 * (layout.num_dims - 1 - 1)) 0) (layout.num_dims - 1 - 1)
    (by rw [resize_length])
  rw [resize_length] at hloop
  exact ⟨⟨hget, hmem.1, hmem.2⟩, hloop.1, hloop.2 i hi⟩

end wilson_table
section wilson_claims

/-- C18. WilsonAction constructor, upper staple: for every link `(x, mu)` with `mu` in `[0, D)`
on a `D`-dimensional periodic lattice (`D = layout.num_dims() - 1`) and every pass `i` of the
loop, `planes` holds the `D - 1` directions other than `mu` in increasing order, and with
`nu = planes[i]` the stored indices `links_[link][6i]`, `links_[link][6i+1]`,
`links_[link][6i+2]` are the array indices of the links `(x + mu, direction nu)`,
`(x + nu, direction mu)` and `(x, direction nu)`, the site coordinates wrapped periodically,
wherever `x` lies. -/
theorem wilson_upper_staple (layout : Layout) (site_index i : Nat)
    (hsite : site_index < layout.local_size)
    (hmu : link_direction layout site_index < layout.num_dims - 1)
    (hi : i < layout.num_dims - 1 - 1) :
    ((wilson_planes (layout.num_dims - 1) (layout.compute_site_coords site_index)).length
          = layout.num_dims - 1 - 1
        ∧ (wilson_planes (layout.num_dims - 1)
            (layout.compute_site_coords site_index)).Pairwise (fun a b => a < b)
        ∧ (∀ d, d ∈ wilson_planes (layout.num_dims - 1) (layout.compute_site_coords site_index)
            ↔ d < layout.num_dims - 1 ∧ d ≠ link_direction layout site_index)
        ∧ (wilson_planes (layout.num_dims - 1) (layout.compute_site_coords site_index))[i]?
            = some (plane_direction layout site_index i))
      ∧ (wilson_links layout)[site_index]? = some (wilson_row layout site_index)
      ∧ (wilson_row layout site_index)[6 * i]?
          = some (link_index layout
              (shifted (link_site layout site_index) (link_direction layout site_index) 1)
              (plane_direction layout site_index i))
      ∧ (wilson_row layout site_index)[6 * i + 1]?
          = some (link_index layout
              (shifted (link_site layout site_index) (plane_direction layout site_index i) 1)
              (link_direction layout site_index))
      ∧ (wilson_row layout site_index)[6 * i + 2]?
          = some (link_index layout (link_site layout site_index)
              (plane_direction layout site_index i)) := by
  obtain ⟨⟨hget, hnu, hne⟩, _, h0, h1, h2, _⟩ := wilson_row_entries layout site_index i hmu hi
  have hst := wilson_staple_links layout (layout.compute_site_coords site_index) _ hmu hnu hne
  rw [hst] at h0 h1 h2
  exact ⟨⟨wilson_planes_length _ _ hmu, wilson_planes_sorted _ _,
    wilson_planes_mem _ _, hget⟩, wilson_links_row layout site_index hsite, h0, h1, h2⟩

/-- C17. WilsonAction constructor, lower staple, as the code stores it: for every link
`(x, mu)` with `mu` in `[0, D)` and every plane direction `nu = planes[i]`, the stored indices
`links_[link][6i+3]` and `links_[link][6i+5]` are the array indices of the links
`(x + mu - nu, direction nu)` and `(x - nu, direction nu)`, and `links_[link][6i+4]` is the
array index of the link `(x - nu, direction nu)` too, not that of `(x - nu, direction mu)`:
line 113 assigns the direction component to itself, so the direction `nu` of line 96 stays. -/
theorem wilson_lower_staple (layout : Layout) (site_index i : Nat)
    (hsite : site_index < layout.local_size)
    (hmu : link_direction layout site_index < layout.num_dims - 1)
    (hi : i < layout.num_dims - 1 - 1) :
    (wilson_links layout)[site_index]? = some (wilson_row layout site_index)
      ∧ (wilson_row layout site_index)[6 * i + 3]?
          = some (link_index layout
              (shifted
                (shifted (link_site layout site_index) (link_direction layout site_index) 1)
                (plane_direction layout site_index i) (-1))
              (plane_direction layout site_index i))
      ∧ (wilson_row layout site_index)[6 * i + 4]?
          = some (link_index layout
              (shifted (link_site layout site_index) (plane_direction layout site_index i) (-1))
              (plane_direction layout site_index i))
      ∧ (wilson_row layout site_index)[6 * i + 5]?
          = some (link_index layout
              (shifted (link_site layout site_index) (plane_direction layout site_index i) (-1))
              (plane_direction layout site_index i)) := by
  obtain ⟨⟨_, hnu, hne⟩, _, _, _, _, h3, h4, h5⟩ :=
    wilson_row_entries layout site_index i hmu hi
  have hst := wilson_staple_links layout (layout.compute_site_coords site_index) _ hmu hnu hne
  rw [hst] at h3 h4 h5
  exact ⟨wilson_links_row layout site_index hsite, h3, h4, h5⟩

end wilson_claims

section wilson_witnesses

/-- Witness of C18: the link 6 of the 2 x 2 lattice, `x = (1, 1)` and `mu = 0`, with the plane
direction `nu = 1`; both `x_mu` and `x_nu` are at the boundary.  The links `(x + mu, nu)`,
`(x + nu, mu)`, `(x, nu)` are `((0, 1), 1)`, `((1, 0), 0)`, `((1, 1), 1)`, with the indices 3, 4
and 7. -/
theorem wilson_upper_staple_witness :
    (6 < square_layout.local_size
        ∧ link_direction square_layout 6 < square_layout.num_dims - 1
        ∧ 0 < square_layout.num_dims - 1 - 1)
      ∧ ((wilson_row square_layout 6)[6 * 0]?
          = some (link_index square_layout
              (shifted (link_site square_layout 6) (link_direction square_layout 6) 1)
              (plane_direction square_layout 6 0))
        ∧ (wilson_row square_layout 6)[6 * 0 + 1]?
          = some (link_index square_layout
              (shifted (link_site square_layout 6) (plane_direction square_layout 6 0) 1)
              (link_direction square_layout 6))
        ∧ (wilson_row square_layout 6)[6 * 0 + 2]?
          = some (link_index square_layout (link_site square_layout 6)
              (plane_direction square_layout 6 0)))
      ∧ link_direction square_layout 6 = 0 ∧ plane_direction square_layout 6 0 = 1
      ∧ wilson_row square_layout 6 = [3, 4, 7, 1, 5, 5] :=
  ⟨⟨by decide, by decide, by decide⟩,
    (wilson_upper_staple square_layout 6 0 (by decide) (by decide) (by decide)).2.2,
    by decide, by decide, by decide⟩

/-- Witness of C17, at the failing input: the link 0 of the 2 x 2 lattice, `x = (0, 0)` and
`mu = 0`, with the plane direction `nu = 1`.  The slot `6i + 4 = 4` holds 3, the index of the
link `((0, 1), direction 1)`; the index of the link `(x - nu, direction mu)`, which is
`((0, 1), direction 0)`, is 2. -/
theorem wilson_lower_staple_witness :
    (0 < square_layout.local_size
        ∧ link_direction square_layout 0 < square_layout.num_dims - 1
        ∧ 0 < square_layout.num_dims - 1 - 1)
      ∧ ((wilson_row square_layout 0)[6 * 0 + 3]?
          = some (link_index square_layout
              (shifted
                (shifted (link_site square_layout 0) (link_direction square_layout 0) 1)
                (plane_direction square_layout 0 0) (-1))
              (plane_direction square_layout 0 0))
        ∧ (wilson_row square_layout 0)[6 * 0 + 4]?
          = some (link_index square_layout
              (shifted (link_site square_layout 0) (plane_direction square_layout 0 0) (-1))
              (plane_direction square_layout 0 0))
        ∧ (wilson_row square_layout 0)[6 * 0 + 5]?
          = some (link_index square_layout
              (shifted (link_site square_layout 0) (plane_direction square_layout 0 0) (-1))
              (plane_direction square_layout 0 0)))
      ∧ link_direction square_layout 0 = 0 ∧ plane_direction square_layout 0 0 = 1
      ∧ wilson_row square_layout 0 = [5, 2, 1, 7, 3, 3]
      ∧ (wilson_row square_layout 0)[6 * 0 + 4]? = some 3
      ∧ link_index square_layout
          (shifted (link_site square_layout 0) (plane_direction square_layout 0 0) (-1))
          (link_direction square_layout 0) = 2 :=
  ⟨⟨by decide, by decide, by decide⟩,
    (wilson_lower_staple square_layout 0 0 (by decide) (by decide) (by decide)).2,
    by decide, by decide, by decide, by decide, by decide⟩

end wilson_witnesses

end pyQCD
